import Mathlib

/-!
Verification development for the photo-to-CRM synchronization scripts
(`common_functions.py`, `photos_to_contacts_bulk.py`, `photos_to_accounts_bulk.py`,
`process_photos.py`).

The Python sources are shallowly embedded: external collaborators (Google
Drive, Salesforce, BeautifulSoup, the `base64` module, `colorama`) are modelled
by explicit state / pure functions capturing exactly the behavior the scripts
rely on, while every decision made by the repository's own code (membership
checks, HTML comparison, branch structure, counters, batching) is translated
function by function from `common_functions.py`.

Conventions:
* Machine strings are Lean `String`s; byte strings are `List Nat` with values
  below 256.
* Salesforce state is a `Crm` record threaded explicitly through the
  operations that the Python code performs against the live org.
* Network activity is reported as an explicit event trace (`Ev`) so that
  ordering properties can be stated.
-/

namespace Adpdx

/-- `colorama.Fore.GREEN` — the ANSI escape sequence used by the scripts. -/
def foreGreen : String := "\x1b[32m"

/-- `colorama.Style.RESET_ALL` — the ANSI escape sequence used by the scripts. -/
def styleReset : String := "\x1b[0m"

/-- Helper for `strip_color_codes`: after seeing `ESC [`, consume `[0-9;]*`
followed by `m` or `K` (the regex `\x1b\[[0-9;]*[mK]`); `none` if the regex
does not match here. -/
def afterEsc : List Char → Option (List Char)
  | [] => none
  | c :: rest =>
    if c.isDigit || c == ';' then afterEsc rest
    else if c == 'm' || c == 'K' then some rest
    else none

/-- Fuel-driven scanner implementing `re.sub(r'\x1b\[[0-9;]*[mK]', '', s)`. -/
def stripColorAux : Nat → List Char → List Char
  | 0, cs => cs
  | fuel + 1, cs =>
    match cs with
    | [] => []
    | c :: rest =>
      if c == '\x1b' then
        match rest with
        | '[' :: r2 =>
          match afterEsc r2 with
          | some r3 => stripColorAux fuel r3
          | none => c :: stripColorAux fuel rest
        | _ => c :: stripColorAux fuel rest
      else c :: stripColorAux fuel rest

/-- `strip_color_codes` (common_functions.py:39-41): removes ANSI color
escape sequences from a string. -/
def strip_color_codes (s : String) : String :=
  String.mk (stripColorAux s.data.length s.data)

/-- `needle in hay` on Python strings: substring containment. -/
def containsSub (hay needle : String) : Bool :=
  decide (needle.data <:+: hay.data)

/-! ## Base64 codec (`encode_image_to_base64` / `decode_image_from_base64`)

The Python functions delegate to the standard `base64` module
(RFC 4648 base64 with `=` padding), embedded here directly. -/

/-- The base64 alphabet. -/
def b64Alphabet : List Char :=
  "ABCDEFGHIJKLMNOPQRSTUVWXYZabcdefghijklmnopqrstuvwxyz0123456789+/".data

/-- Value (0..63) to base64 character. -/
def b64EncChar (n : Nat) : Char := b64Alphabet.getD n 'A'

/-- Base64 character back to its value. -/
def b64DecChar (c : Char) : Nat := b64Alphabet.indexOf c

/-- Regroup 8-bit bytes into 6-bit groups (big-endian), final partial group
padded with zero bits, as base64 does. -/
def sextets : List Nat → List Nat
  | b1 :: b2 :: b3 :: rest =>
      b1 / 4 :: ((b1 % 4) * 16 + b2 / 16) :: ((b2 % 16) * 4 + b3 / 64) :: (b3 % 64) ::
        sextets rest
  | [b1, b2] => [b1 / 4, (b1 % 4) * 16 + b2 / 16, (b2 % 16) * 4]
  | [b1] => [b1 / 4, (b1 % 4) * 16]
  | [] => []

/-- Regroup 6-bit groups back into 8-bit bytes, dropping the zero-padding
bits of a final partial group. -/
def unsextets : List Nat → List Nat
  | s1 :: s2 :: s3 :: s4 :: rest =>
      (s1 * 4 + s2 / 16) :: ((s2 % 16) * 16 + s3 / 4) :: ((s3 % 4) * 64 + s4) ::
        unsextets rest
  | [s1, s2, s3] => [s1 * 4 + s2 / 16, (s2 % 16) * 16 + s3 / 4]
  | [s1, s2] => [s1 * 4 + s2 / 16]
  | _ => []

/-- `encode_image_to_base64` (common_functions.py:183-193):
`base64.b64encode(image_data).decode('utf-8')`. -/
def encode_image_to_base64 (imageData : List Nat) : String :=
  let pad : List Char :=
    match imageData.length % 3 with
    | 1 => ['=', '=']
    | 2 => ['=']
    | _ => []
  String.mk ((sextets imageData).map b64EncChar ++ pad)

/-- `decode_image_from_base64` (common_functions.py:195-205):
`base64.b64decode(encoded_image)` on well-formed base64 input. -/
def decode_image_from_base64 (encodedImage : String) : List Nat :=
  unsextets ((encodedImage.data.filter (fun c => c != '=')).map b64DecChar)

/-! ## Image tag builders and HTML normalization

`check_existing_image` (common_functions.py:220-224) and `upload_new_image`
(common_functions.py:280-285) each build the canonical HTML tag inline from
the same four inputs; the URL templates coincide but the `<img>` element is
closed differently on the two paths (`></img>` versus ` />`). -/

/-- The rendition-download URL template shared by both tag builders. -/
def image_url (fileDomain versionId contentId : String) : String :=
  fileDomain ++ "/sfc/servlet.shepherd/version/renditionDownload?rendition=ORIGINAL_Jpg&versionId="
    ++ versionId ++ "&operationContext=CHATTER&contentId=" ++ contentId

/-- The HTML tag built on the existing-attachment path
(common_functions.py:224): `<p><img src="..." alt="..."></img></p>`. -/
def existing_image_tag (fileDomain fileName versionId contentId : String) : String :=
  "<p><img src=\"" ++ image_url fileDomain versionId contentId ++ "\" alt=\"" ++ fileName
    ++ "\"></img></p>"

/-- The HTML tag built on the upload path (common_functions.py:285):
`<p><img src="..." alt="..." /></p>`. -/
def new_image_tag (fileDomain fileName versionId contentId : String) : String :=
  "<p><img src=\"" ++ image_url fileDomain versionId contentId ++ "\" alt=\"" ++ fileName
    ++ "\" /></p>"

/-- Suffix of the existing-attachment tag form (stray end tag on the void
`<img>` element). -/
def oldSuffix : List Char := ['"', '>', '<', '/', 'i', 'm', 'g', '>', '<', '/', 'p', '>']

/-- Suffix of the upload-path tag form (space plus self-closing slash). -/
def newSuffix : List Char := ['"', ' ', '/', '>', '<', '/', 'p', '>']

/-- Canonical suffix produced by BeautifulSoup's serializer for a void
`<img>` element inside `<p>`. -/
def canonSuffix : List Char := ['"', '/', '>', '<', '/', 'p', '>']

/-- Models the BeautifulSoup `html.parser` round-trip
`str(BeautifulSoup(s, 'html.parser'))` used at common_functions.py:317 and
:322-323, on the fragment shapes this program generates: `<img>` is a void
element, so a stray `></img>` end tag and a ` />` self-close both re-serialize
as `/>`; the empty string stays empty; strings of any other shape pass
through unchanged. -/
def normalizeHtml (s : String) : String :=
  let cs := s.data
  if oldSuffix.isSuffixOf cs then String.mk (cs.take (cs.length - 12) ++ canonSuffix)
  else if newSuffix.isSuffixOf cs then String.mk (cs.take (cs.length - 8) ++ canonSuffix)
  else s

/-! ## Retry decorator (`retry_on_failure`, common_functions.py:44-79)

An API call is modelled as a function from the attempt counter to its
outcome; the error object carries what the decorator inspects
(`hasattr(e, 'resp')`, `e.resp.status`) plus the `Retry-After` value a server
may suggest (which the decorator never reads). The returned list records the
`time.sleep(wait)` durations, in order. -/

/-- An exception as observed by `retry_on_failure`. -/
structure ApiError where
  hasResp : Bool
  status : Nat
  retryAfter : Option Nat
  msg : String
deriving Repr, DecidableEq

/-- Outcome of one underlying API call. -/
inductive CallResult (α : Type) where
  | ok (a : α)
  | err (e : ApiError)
deriving Repr, DecidableEq

/-- `hasattr(e, 'resp') and e.resp.status in [429, 500, 502, 503, 504]`
(common_functions.py:66). -/
def retryableStatus (e : ApiError) : Bool :=
  e.hasResp && (e.status == 429 || e.status == 500 || e.status == 502 ||
    e.status == 503 || e.status == 504)

/-- The `while retries < max_retries` loop of `retry_on_failure`
(common_functions.py:59-77). `fuel` equals `maxRetries - retries`, so the
loop guard is `fuel > 0`; `none` models Python's implicit `return None` when
the loop is never entered. -/
def retryGo {α : Type} (f : Nat → CallResult α) (maxRetries backoff : Nat) :
    Nat → Nat → Nat → List Nat → Option (Except ApiError α) × List Nat
  | 0, _retries, _wait, waits => (none, waits)
  | fuel + 1, retries, wait, waits =>
    match f retries with
    | .ok a => (some (.ok a), waits)
    | .err e =>
      if retryableStatus e then
        if retries < maxRetries - 1 then
          retryGo f maxRetries backoff fuel (retries + 1) (wait * backoff) (waits ++ [wait])
        else (some (.error e), waits)
      else (some (.error e), waits)

/-- `retry_on_failure(max_retries, exceptions, initial_wait, backoff)` applied
to a call: returns the final result together with the list of sleeps
performed. -/
def retry_on_failure {α : Type} (f : Nat → CallResult α)
    (maxRetries initialWait backoff : Nat) : Option (Except ApiError α) × List Nat :=
  retryGo f maxRetries backoff maxRetries 0 initialWait []

/-! ## Salesforce / Drive data model -/

/-- One `ContentVersion` row as the scripts see it. -/
structure ContentVersion where
  cvId : String
  docId : String
  pathOnClient : String
  firstPublishLocationId : String
  versionData : String
deriving Repr, DecidableEq

/-- One Salesforce record (Account or Contact) restricted to the fields the
scripts query: `Id`, `Name`, `Archdpdx_Migration_Id__c` and the configured
photo field (`none` models a SOQL null). -/
structure SfRec where
  rid : String
  name : String
  migId : Option String
  photo : Option String
deriving Repr, DecidableEq

/-- The Salesforce org state the scripts read and write. `nextCv` feeds the
fresh identifiers Salesforce assigns when a `ContentVersion` is created. -/
structure Crm where
  recs : List SfRec
  cvs : List ContentVersion
  nextCv : Nat
deriving Repr, DecidableEq

/-- One file from the Drive listing. -/
structure DriveFile where
  fid : String
  name : String
deriving Repr, DecidableEq

/-- Network / decision events emitted by per-file processing, in execution
order. `membershipCheck` is the in-memory attachment-index lookup (not a
network call); every other constructor is a storage or CRM call. -/
inductive Ev where
  | crmGetRecord (objectName rid : String)
  | membershipCheck (fileName rid : String) (present : Bool)
  | crmQueryCv (fileName rid : String)
  | driveDownload (fileId : String)
  | crmCreateCv (fileName rid : String)
  | crmGetCv (cvId : String)
deriving Repr, DecidableEq

/-- Which events are network calls (storage or CRM). -/
def Ev.isNetwork : Ev → Bool
  | .membershipCheck _ _ _ => false
  | _ => true

/-- Which events are storage (Google Drive) calls. -/
def Ev.isStorage : Ev → Bool
  | .driveDownload _ => true
  | _ => false

/-- Which events download bytes from storage. -/
def Ev.isDownload : Ev → Bool
  | .driveDownload _ => true
  | _ => false

/-- Which events create (upload) a CRM attachment. -/
def Ev.isCreate : Ev → Bool
  | .crmCreateCv _ _ => true
  | _ => false

/-- `find?` of a record by Salesforce id. -/
def findRec (recs : List SfRec) (rid : String) : Option SfRec :=
  recs.find? (fun r => r.rid == rid)

/-- `get_sf_record` (common_functions.py:230-245): fetches a record by id,
failing when no such record exists. -/
def get_sf_record (crm : Crm) (objectName recordId : String) : Except String SfRec :=
  match findRec crm.recs recordId with
  | some r => .ok r
  | none => .error (objectName ++ " with Id " ++ recordId ++ " not found")

/-- The `ContentVersion` filter used by the targeted query
`SELECT Id, ContentDocumentId FROM ContentVersion WHERE PathOnClient = ...
AND FirstPublishLocationId = ...` (common_functions.py:212-214). -/
def cvPred (fileName sfObjectId : String) (cv : ContentVersion) : Bool :=
  cv.pathOnClient == fileName && cv.firstPublishLocationId == sfObjectId

/-- The Python dict `{'Id': sf_record_id, photo_field: image_tag}`
(common_functions.py:327, 334) as an association list; a duplicate key
collapses as in a Python dict literal. -/
def mkMutation (sfRecordId photoField imageTag : String) : List (String × String) :=
  if photoField == "Id" then [("Id", imageTag)]
  else [("Id", sfRecordId), (photoField, imageTag)]

/-- Python `dict.get` on the association-list encoding. -/
def dictGet (d : List (String × String)) (k : String) : Option String :=
  (d.find? (fun kv => kv.fst == k)).map (fun kv => kv.snd)

/-- `check_existing_image` (common_functions.py:207-227): if the attachment
index lists the file for this record, run the targeted `ContentVersion`
query; found rows yield the canonical tag, zero rows raise the
index-inconsistency exception; files not in the index yield `None`. Also
returns the event trace. -/
def check_existing_image (crm : Crm) (fileName sfObjectId : String)
    (existingImagesIdx : String → List String) (fileDomain : String) :
    Except String (Option String) × List Ev :=
  if (existingImagesIdx sfObjectId).contains fileName then
    match crm.cvs.filter (cvPred fileName sfObjectId) with
    | [] => (.error ("Image " ++ fileName ++ " exists in Drive but not in Salesforce"),
        [Ev.membershipCheck fileName sfObjectId true, Ev.crmQueryCv fileName sfObjectId])
    | cv :: _ =>
        (.ok (some (existing_image_tag fileDomain fileName cv.cvId cv.docId)),
        [Ev.membershipCheck fileName sfObjectId true, Ev.crmQueryCv fileName sfObjectId])
  else (.ok none, [Ev.membershipCheck fileName sfObjectId false])

/-- `upload_new_image` (common_functions.py:247-285): download the bytes,
base64-encode them, re-check the record, create the `ContentVersion`, fetch
its `ContentDocumentId` and build the canonical tag. Salesforce assigns the
fresh ids. Also returns the event trace. -/
def upload_new_image (crm : Crm) (drive : String → List Nat)
    (fileId fileName sfRecordId objectName fileDomain : String) :
    Except String (Crm × String) × List Ev :=
  let imageData := drive fileId
  let encodedImage := encode_image_to_base64 imageData
  match get_sf_record crm objectName sfRecordId with
  | .error e => (.error e, [Ev.driveDownload fileId, Ev.crmGetRecord objectName sfRecordId])
  | .ok _ =>
    let cvId := "CV" ++ toString crm.nextCv
    let docId := "DOC" ++ toString crm.nextCv
    let crmNew : Crm :=
      { crm with
        cvs := crm.cvs ++ [⟨cvId, docId, fileName, sfRecordId, encodedImage⟩],
        nextCv := crm.nextCv + 1 }
    (.ok (crmNew, new_image_tag fileDomain fileName cvId docId),
      [Ev.driveDownload fileId, Ev.crmGetRecord objectName sfRecordId,
        Ev.crmCreateCv fileName sfRecordId, Ev.crmGetCv cvId])

/-- `process_image` (common_functions.py:287-337): fetch the record, consult
the attachment index; for indexed files normalize both the canonical tag and
the stored field value and decide `Skipped` vs `Updated`; for unindexed
files upload and report `Loaded-Linked (Pass)`; any exception becomes a
per-file `Error: ...` result with no mutation. Returns the (possibly
updated) CRM state, the optional mutation record, the raw result message and
the event trace. -/
def process_image (crm : Crm) (drive : String → List Nat)
    (objectName fileId fileName sfRecordId : String)
    (existingImagesIdx : String → List String) (photoField fileDomain : String) :
    Crm × Option (List (String × String)) × String × List Ev :=
  match get_sf_record crm objectName sfRecordId with
  | .error e => (crm, none, "Error: " ++ e, [Ev.crmGetRecord objectName sfRecordId])
  | .ok sfRec =>
    match check_existing_image crm fileName sfRecordId existingImagesIdx fileDomain with
    | (.error e, tr) =>
        (crm, none, "Error: " ++ e, Ev.crmGetRecord objectName sfRecordId :: tr)
    | (.ok (some imageTag), tr) =>
      let fieldValue := sfRec.photo.getD ""
      if normalizeHtml fieldValue != normalizeHtml imageTag then
        (crm, some (mkMutation sfRecordId photoField imageTag),
          foreGreen ++ "Updated" ++ styleReset, Ev.crmGetRecord objectName sfRecordId :: tr)
      else (crm, none, "Skipped", Ev.crmGetRecord objectName sfRecordId :: tr)
    | (.ok none, tr) =>
      match upload_new_image crm drive fileId fileName sfRecordId objectName fileDomain with
      | (.error e, tr2) =>
          (crm, none, "Error: " ++ e,
            Ev.crmGetRecord objectName sfRecordId :: (tr ++ tr2))
      | (.ok (crmNew, imageTag), tr2) =>
          (crmNew, some (mkMutation sfRecordId photoField imageTag),
            foreGreen ++ "Loaded-Linked (Pass)" ++ styleReset,
            Ev.crmGetRecord objectName sfRecordId :: (tr ++ tr2))

/-! ## Index building (`load_sf_data`, common_functions.py:339-371) -/

/-- The `id_map` dict comprehension keyed by `Archdpdx_Migration_Id__c`
(common_functions.py:356-359): records without a migration id are dropped;
on duplicate keys the later record wins (Python dict semantics), hence the
lookup over the reversed record list. -/
def buildIdMap (crm : Crm) (mig : String) : Option (String × String) :=
  (crm.recs.reverse.find? (fun r => r.migId == some mig)).map (fun r => (r.rid, r.name))

/-- The `existing_images` dict (common_functions.py:361-369): per record id,
the `PathOnClient` names of all `ContentVersion` rows published on it;
rows whose `FirstPublishLocationId` is not a known record id are dropped. -/
def existingImages (crm : Crm) (rid : String) : List String :=
  if crm.recs.any (fun r => r.rid == rid) then
    (crm.cvs.filter (fun cv => cv.firstPublishLocationId == rid)).map
      (fun cv => cv.pathOnClient)
  else []

/-! ## Filename parsing (`file_regex.match`, process_photos.py:119-123 and
common_functions.py:479-504) -/

/-- Case-insensitive literal-prefix stripper over character lists (the
pattern chars are supplied lower-case). -/
def stripPrefixCI : List Char → List Char → Option (List Char)
  | [], cs => some cs
  | _ :: _, [] => none
  | p :: ps, c :: cs => if c.toLower == p then stripPrefixCI ps cs else none

/-- `re.match(r"photo(\d+)\.jpg", file_name, re.IGNORECASE)`: anchored at the
start only (trailing characters are allowed, as with `re.match`); returns the
digit run captured by group 1. -/
def parsePhotoDigits (s : String) : Option (List Char) :=
  match stripPrefixCI "photo".data s.data with
  | none => none
  | some rest =>
    let ds := rest.takeWhile Char.isDigit
    if ds.isEmpty then none
    else
      match stripPrefixCI ".jpg".data (rest.dropWhile Char.isDigit) with
      | none => none
      | some _ => some ds

/-- The migration key derived from a file name
(common_functions.py:503-504): group 1 left-stripped of `'0'`, then
namespaced `Parishes_<n>` for Accounts and bare `<n>` for Contacts. -/
def migrationIdOf (objectName fileName : String) : Option String :=
  (parsePhotoDigits fileName).map (fun ds =>
    let num := String.mk (ds.dropWhile (fun c => c == '0'))
    if objectName == "Account" then "Parishes_" ++ num else num)

/-! ## Main loop (`process_drive_files`, common_functions.py:383-579) -/

/-- One row of `all_processed_sf_records_info` (the CSV audit trail). -/
structure CsvRow where
  salesforceId : Option String
  recordName : String
  migrationId : String
  processedFileName : String
  processingResult : String
deriving Repr, DecidableEq

/-- Loop state of `process_drive_files`: the threaded CRM state, the
`update_records` list, the audit rows, and the incremental counters
`total_files_processed_successfully`, `records_updated`, `records_skipped`,
`processing_errors_count`. -/
structure Acc where
  crm : Crm
  updates : List (List (String × String))
  rows : List CsvRow
  processedCount : Nat
  updatedCount : Nat
  skippedCount : Nat
  errorCount : Nat
deriving Repr, DecidableEq

/-- The body of the `for idx, item in enumerate(all_items)` loop
(common_functions.py:466-566): parse the name, look up the record, call
`process_image`, classify the raw result message for the incremental
counters (`"Error:" in msg` / `msg == "Skipped"` /
`"Loaded-Linked & Updated" in msg`), and append the CSV row. -/
def processOne (objectName photoField fileDomain : String) (drive : String → List Nat)
    (idMap : String → Option (String × String)) (existingImagesIdx : String → List String)
    (acc : Acc) (item : DriveFile) : Acc :=
  match migrationIdOf objectName item.name with
  | none =>
    { acc with
      rows := acc.rows ++ [⟨none, "N/A", "N/A", item.name, "Invalid file name format"⟩],
      errorCount := acc.errorCount + 1 }
  | some mid =>
    match idMap mid with
    | none =>
      { acc with
        rows := acc.rows ++ [⟨none, "N/A", mid, item.name, "SF Record Not Found"⟩],
        errorCount := acc.errorCount + 1 }
    | some (sfRecordId, recordName) =>
      match process_image acc.crm drive objectName item.fid item.name sfRecordId
          existingImagesIdx photoField fileDomain with
      | (crmNew, updateData, resultMsg, _tr) =>
        { crm := crmNew,
          updates := acc.updates ++ updateData.toList,
          rows := acc.rows ++ [⟨some sfRecordId, recordName, mid, item.name, resultMsg⟩],
          processedCount := acc.processedCount + 1,
          updatedCount := acc.updatedCount +
            (if containsSub resultMsg "Error:" then 0
             else if resultMsg == "Skipped" then 0
             else if containsSub resultMsg "Loaded-Linked & Updated" then 1 else 0),
          skippedCount := acc.skippedCount +
            (if containsSub resultMsg "Error:" then 0
             else if resultMsg == "Skipped" then 1 else 0),
          errorCount := acc.errorCount +
            (if containsSub resultMsg "Error:" then 1 else 0) }

/-- `process_drive_files` from the listing onward: the indexes are built once
from the starting CRM state (snapshot semantics of `load_sf_data`) and the
loop is folded over the listing in order. Subfolder resolution and the
paginated listing itself are Drive I/O outside this model; `items` is the
resulting listing. -/
def process_drive_files (objectName photoField fileDomain : String)
    (drive : String → List Nat) (crm : Crm) (items : List DriveFile) : Acc :=
  items.foldl
    (processOne objectName photoField fileDomain drive (buildIdMap crm) (existingImages crm))
    ⟨crm, [], [], 0, 0, 0, 0⟩

/-! ## Applying the staged mutations (the effect of a successful
`sf.bulk.<Object>.update`, common_functions.py:627) -/

/-- Effect of one mutation record on the record table: the record(s) whose
`Id` matches get the photo field set to the staged value. -/
def applyUpdate (photoField : String) (recs : List SfRec)
    (m : List (String × String)) : List SfRec :=
  recs.map (fun r =>
    if some r.rid == dictGet m "Id" then { r with photo := dictGet m photoField } else r)

/-- Effect of the whole bulk update, in list order. -/
def applyUpdates (photoField : String) (recs : List SfRec)
    (ms : List (List (String × String))) : List SfRec :=
  ms.foldl (applyUpdate photoField) recs

/-- One full run: process every file, then apply all staged mutations (a run
that "completes" has its bulk update succeed). Returns the resulting CRM
state and the loop results. -/
def fullRun (objectName photoField fileDomain : String) (drive : String → List Nat)
    (crm : Crm) (items : List DriveFile) : Crm × Acc :=
  let acc := process_drive_files objectName photoField fileDomain drive crm items
  ({ acc.crm with recs := applyUpdates photoField acc.crm.recs acc.updates }, acc)

/-! ## Batch dispatcher (`perform_bulk_updates`, common_functions.py:581-664) -/

/-- One per-record result from the CRM bulk-update interface. -/
structure UpdateResult where
  success : Bool
  resId : Option String
  errors : List String
deriving Repr, DecidableEq

/-- What `perform_bulk_updates` produces: the returned results, the entries
written to the per-record-type error log (record id paired with the message),
and how many calls were issued to the CRM bulk-update interface. -/
structure BulkOutcome where
  results : List UpdateResult
  errorLog : List (String × String)
  bulkCalls : Nat
deriving Repr, DecidableEq

/-- `"; ".join(...)` over the error messages of a failed record. -/
def joinErrors (es : List String) : String := String.intercalate "; " es

/-- `perform_bulk_updates` (common_functions.py:581-664). The CRM client is
the external `sf.bulk.<Object>.update(records, batch_size, use_serial)`
interface, modelled as a function of the record list and batch size that
either returns per-record results or raises. The dispatcher issues a single
call with the whole list and `batch_size=200`, logs each failed record to
the error log, treats a raising call as a failure of every staged record
(logged with the shared cause), and never re-raises. -/
def perform_bulk_updates
    (client : List (List (String × String)) → Nat → Except String (List UpdateResult))
    (updateRecords : List (List (String × String))) (_objectName : String) : BulkOutcome :=
  if updateRecords.isEmpty then ⟨[], [], 0⟩
  else
    match client updateRecords 200 with
    | .ok results =>
      ⟨results,
        results.filterMap (fun r =>
          if r.success then none
          else some (r.resId.getD "Unknown ID", joinErrors r.errors)),
        1⟩
    | .error e =>
      ⟨[],
        updateRecords.map (fun m =>
          ((dictGet m "Id").getD "Unknown ID in batch",
            "Batch failed due to Salesforce API error: " ++ e)),
        1⟩

/-! ## Lemmas about the tag builders and HTML normalization -/

/-- The part shared verbatim by both tag templates: everything up to the
closing of the `alt` attribute. -/
def tagStem (fileDomain fileName versionId contentId : String) : String :=
  "<p><img src=\"" ++ image_url fileDomain versionId contentId ++ "\" alt=\"" ++ fileName

theorem existing_image_tag_eq (d f v c : String) :
    existing_image_tag d f v c = tagStem d f v c ++ "\"></img></p>" := rfl

theorem new_image_tag_eq (d f v c : String) :
    new_image_tag d f v c = tagStem d f v c ++ "\" /></p>" := rfl

theorem existing_image_tag_data (d f v c : String) :
    (existing_image_tag d f v c).data = (tagStem d f v c).data ++ oldSuffix := by
  rw [existing_image_tag_eq, String.data_append]
  congr 1

theorem new_image_tag_data (d f v c : String) :
    (new_image_tag d f v c).data = (tagStem d f v c).data ++ newSuffix := by
  rw [new_image_tag_eq, String.data_append]
  congr 1

theorem oldSuffix_isSuffixOf_append (p : List Char) :
    oldSuffix.isSuffixOf (p ++ oldSuffix) = true :=
  List.isSuffixOf_iff_suffix.mpr (List.suffix_append _ _)

theorem newSuffix_isSuffixOf_append (p : List Char) :
    newSuffix.isSuffixOf (p ++ newSuffix) = true :=
  List.isSuffixOf_iff_suffix.mpr (List.suffix_append _ _)

theorem oldSuffix_not_suffix_new (p : List Char) :
    oldSuffix.isSuffixOf (p ++ newSuffix) = false := by
  by_contra hne
  rw [Bool.not_eq_false] at hne
  have h1 : oldSuffix <:+ p ++ newSuffix := List.isSuffixOf_iff_suffix.mp hne
  have h2 : newSuffix <:+ p ++ newSuffix := List.suffix_append _ _
  have h3 : newSuffix <:+ oldSuffix :=
    List.suffix_of_suffix_length_le h2 h1 (by decide)
  exact absurd h3 (by decide)

theorem take_length_append (p q : List Char) : (p ++ q).take p.length = p :=
  List.take_left p q

theorem normalizeHtml_existing (d f v c : String) :
    normalizeHtml (existing_image_tag d f v c) =
      String.mk ((tagStem d f v c).data ++ canonSuffix) := by
  unfold normalizeHtml
  simp only [existing_image_tag_data, oldSuffix_isSuffixOf_append, if_true]
  congr 1
  have hlen : ((tagStem d f v c).data ++ oldSuffix).length - 12 = (tagStem d f v c).data.length := by
    rw [List.length_append]
    simp [show oldSuffix.length = 12 from rfl]
  rw [hlen, take_length_append]

theorem normalizeHtml_new (d f v c : String) :
    normalizeHtml (new_image_tag d f v c) =
      String.mk ((tagStem d f v c).data ++ canonSuffix) := by
  unfold normalizeHtml
  simp only [new_image_tag_data, oldSuffix_not_suffix_new, newSuffix_isSuffixOf_append,
    Bool.false_eq_true, if_false, if_true]
  congr 1
  have hlen : ((tagStem d f v c).data ++ newSuffix).length - 8 = (tagStem d f v c).data.length := by
    rw [List.length_append]
    simp [show newSuffix.length = 8 from rfl]
  rw [hlen, take_length_append]

/-- The two tag forms coincide after normalization. -/
theorem normalizeHtml_cross (d f v c : String) :
    normalizeHtml (existing_image_tag d f v c) = normalizeHtml (new_image_tag d f v c) := by
  rw [normalizeHtml_existing, normalizeHtml_new]

theorem normalizeHtml_empty : normalizeHtml "" = "" := by decide

theorem normalizeHtml_existing_ne_empty (d f v c : String) :
    normalizeHtml (existing_image_tag d f v c) ≠ "" := by
  rw [normalizeHtml_existing]
  intro h
  have hd : (tagStem d f v c).data ++ canonSuffix = ([] : List Char) :=
    congrArg String.data h
  have := congrArg List.length hd
  rw [List.length_append] at this
  simp [show canonSuffix.length = 7 from rfl] at this

set_option maxRecDepth 4000 in
/-- C4 counterexample: at the concrete four inputs below, the tag built on the
validate-suspected-duplicate path (`check_existing_image`,
common_functions.py:224) and the tag built on the generate-new-field-value
path (`upload_new_image`, common_functions.py:285) are not byte-identical:
the former closes the `<img>` element as `></img>`, the latter as ` />`. -/
theorem c4_tag_builders_not_byte_identical :
    existing_image_tag "https://org.file.force.com" "photo5.jpg" "068A" "069B" ≠
      new_image_tag "https://org.file.force.com" "photo5.jpg" "068A" "069B" := by
  decide

/-- C4 (amended): each of the two inline tag builders is a deterministic
function of the four inputs (base URL, file name, version id, document id)
and both consist of the same stem — shared URL template and `alt` attribute —
followed by a path-specific closing of the `<img>` element (`"></img></p>`
versus `" /></p>`); consequently the two builds are equal after HTML
normalization, though not byte-identical. -/
theorem c4_tag_builders_agree_after_normalization
    (baseUrl fileName versionId documentId : String) :
    existing_image_tag baseUrl fileName versionId documentId =
        tagStem baseUrl fileName versionId documentId ++ "\"></img></p>" ∧
    new_image_tag baseUrl fileName versionId documentId =
        tagStem baseUrl fileName versionId documentId ++ "\" /></p>" ∧
    normalizeHtml (existing_image_tag baseUrl fileName versionId documentId) =
        normalizeHtml (new_image_tag baseUrl fileName versionId documentId) :=
  ⟨rfl, rfl, normalizeHtml_cross baseUrl fileName versionId documentId⟩

/-! ## Base64 round-trip lemmas -/

theorem b64_dec_enc (n : Nat) (h : n < 64) : b64DecChar (b64EncChar n) = n := by
  have hall : ∀ i : Fin 64, b64DecChar (b64EncChar i.val) = i.val := by decide
  exact hall ⟨n, h⟩

theorem b64EncChar_ne_pad (n : Nat) : b64EncChar n ≠ '=' := by
  by_cases h : n < 64
  · have hall : ∀ i : Fin 64, b64EncChar i.val ≠ '=' := by decide
    exact hall ⟨n, h⟩
  · unfold b64EncChar
    rw [List.getD_eq_default]
    · decide
    · have : (64 : Nat) ≤ n := Nat.le_of_not_lt h
      simpa [show b64Alphabet.length = 64 from rfl] using this

theorem sextets_lt : ∀ bs : List Nat, (∀ x ∈ bs, x < 256) → ∀ s ∈ sextets bs, s < 64
  | [], _, s, hs => by simp [sextets] at hs
  | [b1], h, s, hs => by
    have h1 : b1 < 256 := h b1 (by simp)
    simp [sextets] at hs
    rcases hs with hs | hs <;> omega
  | [b1, b2], h, s, hs => by
    have h1 : b1 < 256 := h b1 (by simp)
    have h2 : b2 < 256 := h b2 (by simp)
    simp [sextets] at hs
    rcases hs with hs | hs | hs <;> omega
  | b1 :: b2 :: b3 :: rest, h, s, hs => by
    have h1 : b1 < 256 := h b1 (by simp)
    have h2 : b2 < 256 := h b2 (by simp)
    have h3 : b3 < 256 := h b3 (by simp)
    have ih := sextets_lt rest (fun x hx => h x (by simp [hx]))
    simp only [sextets, List.mem_cons] at hs
    rcases hs with hs | hs | hs | hs | hs
    · omega
    · omega
    · omega
    · omega
    · exact ih s hs

theorem unsextets_sextets : ∀ bs : List Nat, (∀ x ∈ bs, x < 256) →
    unsextets (sextets bs) = bs
  | [], _ => rfl
  | [b1], h => by
    have h1 : b1 < 256 := h b1 (by simp)
    simp [sextets, unsextets]
    omega
  | [b1, b2], h => by
    have h1 : b1 < 256 := h b1 (by simp)
    have h2 : b2 < 256 := h b2 (by simp)
    simp [sextets, unsextets]
    omega
  | b1 :: b2 :: b3 :: rest, h => by
    have h1 : b1 < 256 := h b1 (by simp)
    have h2 : b2 < 256 := h b2 (by simp)
    have h3 : b3 < 256 := h b3 (by simp)
    have ih := unsextets_sextets rest (fun x hx => h x (by simp [hx]))
    simp only [sextets, unsextets, ih, List.cons.injEq, and_true]
    refine ⟨by omega, by omega, by omega⟩

theorem decode_encode (bs : List Nat) (h : ∀ x ∈ bs, x < 256) :
    decode_image_from_base64 (encode_image_to_base64 bs) = bs := by
  unfold encode_image_to_base64 decode_image_from_base64
  simp only
  rw [List.filter_append]
  have hpad : ∀ n : Nat,
      ((match n % 3 with
        | 1 => ['=', '=']
        | 2 => ['=']
        | _ => ([] : List Char)).filter (fun c => c != '=')) = [] := by
    intro n
    have h3 : n % 3 = 0 ∨ n % 3 = 1 ∨ n % 3 = 2 := by omega
    rcases h3 with h3 | h3 | h3 <;> rw [h3] <;> rfl
  rw [hpad bs.length]
  have hmap : ((sextets bs).map b64EncChar).filter (fun c => c != '=') =
      (sextets bs).map b64EncChar := by
    apply List.filter_eq_self.mpr
    intro c hc
    rcases List.mem_map.mp hc with ⟨n, _, rfl⟩
    simpa using b64EncChar_ne_pad n
  rw [List.append_nil, hmap, List.map_map]
  have hid : (sextets bs).map (b64DecChar ∘ b64EncChar) = sextets bs := by
    have hpt : ∀ s ∈ sextets bs, (b64DecChar ∘ b64EncChar) s = id s :=
      fun s hs => b64_dec_enc s (sextets_lt bs h s hs)
    rw [List.map_congr_left hpt, List.map_id]
  rw [hid]
  exact unsextets_sextets bs h

/-- C9: base64 round trip — for every byte string (values below 256),
decoding the encoding recovers the original bytes, and encoding is
deterministic. -/
theorem c9_base64_roundtrip (b : List Nat) (h : ∀ x ∈ b, x < 256) :
    decode_image_from_base64 (encode_image_to_base64 b) = b ∧
    ∀ b2 : List Nat, b2 = b → encode_image_to_base64 b2 = encode_image_to_base64 b :=
  ⟨decode_encode b h, fun _ hb => by rw [hb]⟩

/-- C9 witness: the round trip evaluated at the concrete byte string
`[0, 127, 255, 64, 3]`. -/
theorem c9_base64_roundtrip_witness :
    (∀ x ∈ [0, 127, 255, 64, 3], x < 256) ∧
    decode_image_from_base64 (encode_image_to_base64 [0, 127, 255, 64, 3]) =
      [0, 127, 255, 64, 3] :=
  ⟨by decide, (c9_base64_roundtrip [0, 127, 255, 64, 3] (by decide)).1⟩

/-! ## Retry policy lemmas -/

theorem retryGo_waits_geometric {α : Type} (f : Nat → CallResult α) (m b w0 : Nat) :
    ∀ (fuel retries wait : Nat) (ws : List Nat),
      ws = (List.range ws.length).map (fun i => w0 * b ^ i) →
      wait = w0 * b ^ ws.length →
      (retryGo f m b fuel retries wait ws).2 =
        (List.range (retryGo f m b fuel retries wait ws).2.length).map
          (fun i => w0 * b ^ i)
  | 0, _retries, _wait, ws, hws, _hw => hws
  | fuel + 1, retries, wait, ws, hws, hw => by
    unfold retryGo
    cases hf : f retries with
    | ok a => exact hws
    | err e =>
      by_cases hr : retryableStatus e = true
      · by_cases hlt : retries < m - 1
        · simp only [hr, hlt, if_true]
          refine retryGo_waits_geometric f m b w0 fuel (retries + 1) (wait * b) (ws ++ [wait]) ?_ ?_
          · have hl : (ws ++ [wait]).length = ws.length + 1 := by
              rw [List.length_append, List.length_singleton]
            rw [hl, List.range_succ, List.map_append, ← hws]
            simp [hw]
          · rw [List.length_append, List.length_singleton, hw, pow_succ]
            ring
        · simp only [hr, hlt, if_true, if_false]
          exact hws
      · simp only [Bool.not_eq_true] at hr
        simp only [hr, Bool.false_eq_true, if_false]
        exact hws

theorem retryGo_waits_length {α : Type} (f : Nat → CallResult α) (m b : Nat) :
    ∀ (fuel retries wait : Nat) (ws : List Nat), retries + fuel = m →
      (retryGo f m b fuel retries wait ws).2.length ≤ ws.length + (m - 1 - retries)
  | 0, _retries, _wait, ws, _hf => Nat.le_add_right _ _
  | fuel + 1, retries, wait, ws, hfm => by
    unfold retryGo
    cases hf : f retries with
    | ok a => exact Nat.le_add_right _ _
    | err e =>
      by_cases hr : retryableStatus e = true
      · by_cases hlt : retries < m - 1
        · simp only [hr, hlt, if_true]
          have ih := retryGo_waits_length f m b fuel (retries + 1) (wait * b) (ws ++ [wait])
            (by omega)
          rw [List.length_append, List.length_singleton] at ih
          omega
        · simp only [hr, hlt, if_true, if_false]
          exact Nat.le_add_right _ _
      · simp only [Bool.not_eq_true] at hr
        simp only [hr, Bool.false_eq_true, if_false]
        exact Nat.le_add_right _ _

theorem retryGo_exhaust {α : Type} (f : Nat → CallResult α) (m b : Nat)
    (hall : ∀ k, k < m → ∃ e, f k = CallResult.err e ∧ retryableStatus e = true) :
    ∀ (fuel retries wait : Nat) (ws : List Nat), retries + fuel = m → 0 < fuel →
      ∃ e, f (m - 1) = CallResult.err e ∧
        (retryGo f m b fuel retries wait ws).1 = some (.error e)
  | 0, _retries, _wait, _ws, _hfm, hpos => absurd hpos (by omega)
  | fuel + 1, retries, wait, ws, hfm, _hpos => by
    obtain ⟨e, hfe, hre⟩ := hall retries (by omega)
    unfold retryGo
    rw [hfe]
    by_cases hlt : retries < m - 1
    · simp only [hre, hlt, if_true]
      exact retryGo_exhaust f m b hall fuel (retries + 1) (wait * b) (ws ++ [wait])
        (by omega) (by omega)
    · have hret : retries = m - 1 := by omega
      simp only [hre, hlt, if_true, if_false]
      exact ⟨e, by rw [← hret]; exact hfe, rfl⟩

/-- C7 counterexample: the decorator never consults a server-suggested delay.
At the concrete scenario below the first call fails with status 429 carrying
`Retry-After: 7`, yet the sleep performed is the computed initial backoff of
1 second, not 7. -/
theorem c7_retry_after_ignored :
    (retry_on_failure
      (fun k => if k == 0 then CallResult.err ⟨true, 429, some 7, "rate limited"⟩
                else CallResult.ok 0) 3 1 2).2 = [1] ∧ (1 : Nat) ≠ 7 := by
  exact ⟨rfl, by decide⟩

/-- C7 (amended): for every call wrapped by `retry_on_failure` with
`max_retries = m > 0`, initial wait `w` and backoff factor `b`: at most
`m - 1` sleeps (hence at most `m` attempts) are performed; the sleeps are
exactly the computed exponential backoff sequence `w, w*b, w*b^2, ...`
(no server-suggested delay is ever consulted); if every attempt fails with a
retryable status (429/500/502/503/504 on a response-bearing error), the
original last failure is re-raised to the caller; and a first-attempt failure
with a non-retryable status is re-raised immediately with no sleeps. -/
theorem c7_retry_policy {α : Type} (f : Nat → CallResult α) (m w b : Nat) (hm : 0 < m) :
    ((retry_on_failure f m w b).2.length ≤ m - 1) ∧
    ((retry_on_failure f m w b).2 =
      (List.range (retry_on_failure f m w b).2.length).map (fun i => w * b ^ i)) ∧
    ((∀ k, k < m → ∃ e, f k = CallResult.err e ∧ retryableStatus e = true) →
      ∃ e, f (m - 1) = CallResult.err e ∧
        (retry_on_failure f m w b).1 = some (.error e)) ∧
    (∀ e, f 0 = CallResult.err e → retryableStatus e = false →
      retry_on_failure f m w b = (some (.error e), [])) := by
  refine ⟨?_, ?_, ?_, ?_⟩
  · have h := retryGo_waits_length f m b m 0 w [] (by omega)
    simpa [retry_on_failure] using h
  · have h := retryGo_waits_geometric f m b w m 0 w [] (by simp) (by simp)
    simpa [retry_on_failure] using h
  · intro hall
    exact retryGo_exhaust f m b hall m 0 w [] (by omega) hm
  · intro e hfe hre
    obtain ⟨m', rfl⟩ : ∃ m', m = m' + 1 := ⟨m - 1, by omega⟩
    unfold retry_on_failure retryGo
    rw [hfe]
    simp [hre]

/-- C7 witness: the amended policy instantiated at a concrete always-failing
retryable call with `max_retries = 3`, `initial_wait = 1`, `backoff = 2`:
the sleeps are `[1, 2]` and the original failure is re-raised. -/
theorem c7_retry_policy_witness :
    (0 : Nat) < 3 ∧
    ∃ e, (fun _ : Nat => CallResult.err (α := Nat) ⟨true, 503, none, "boom"⟩) (3 - 1) =
        CallResult.err e ∧
      (retry_on_failure (fun _ : Nat => CallResult.err (α := Nat) ⟨true, 503, none, "boom"⟩)
        3 1 2).1 = some (.error e) :=
  ⟨by decide,
    (c7_retry_policy (fun _ : Nat => CallResult.err (α := Nat) ⟨true, 503, none, "boom"⟩)
      3 1 2 (by decide)).2.2.1
      (fun k _ => ⟨⟨true, 503, none, "boom"⟩, rfl, by decide⟩)⟩

/-! ## Batch dispatcher lemmas -/

theorem length_filterMap_fail {β : Type} (rs : List UpdateResult) (g : UpdateResult → β) :
    (rs.filterMap (fun r => if r.success then none else some (g r))).length =
      (rs.filter (fun r => !r.success)).length := by
  induction rs with
  | nil => rfl
  | cons r rest ih => by_cases h : r.success <;> simp [h, ih]

/-- A bulk client that accepts every record, used for concrete evaluations. -/
def c8OkClient : List (List (String × String)) → Nat → Except String (List UpdateResult) :=
  fun recs _batchSize => .ok (recs.map (fun m => ⟨true, dictGet m "Id", []⟩))

/-- C8 counterexample: `perform_bulk_updates` does not issue `ceil(N/K)` bulk
calls itself — it hands the whole list to the CRM client in a single call
with `batch_size=200` (common_functions.py:627). With `N = 201` staged
records the dispatcher issues 1 interface call while `ceil(201/200) = 2`. -/
theorem c8_single_call_not_ceil :
    (perform_bulk_updates c8OkClient
      (List.replicate 201 [("Id", "001X"), ("Photo__c", "tag")]) "Contact").bulkCalls = 1 ∧
    (201 + 200 - 1) / 200 = 2 ∧ (1 : Nat) ≠ 2 := by
  refine ⟨rfl, by decide, by decide⟩

/-- C8 (amended): for every staged mutation list, the dispatcher issues
exactly one call to the CRM bulk-update interface (zero when the list is
empty), passing the entire list with the fixed batch size 200 regardless of
record type; when the call returns per-record results, every failed record
produces exactly one error-log entry keyed by its record id and successes
produce none; when the call itself raises, every staged record is logged
with the shared cause; nothing is re-raised past the dispatcher (it is a
total function into `BulkOutcome`). -/
theorem c8_bulk_dispatch
    (client : List (List (String × String)) → Nat → Except String (List UpdateResult))
    (recs : List (List (String × String))) (obj : String) :
    ((perform_bulk_updates client recs obj).bulkCalls =
      if recs.isEmpty then 0 else 1) ∧
    (∀ rs, recs.isEmpty = false → client recs 200 = .ok rs →
      (perform_bulk_updates client recs obj).results = rs ∧
      (perform_bulk_updates client recs obj).errorLog.length =
        (rs.filter (fun r => !r.success)).length ∧
      ∀ p ∈ (perform_bulk_updates client recs obj).errorLog,
        ∃ r ∈ rs, r.success = false ∧ p.1 = r.resId.getD "Unknown ID") ∧
    (∀ e, recs.isEmpty = false → client recs 200 = .error e →
      (perform_bulk_updates client recs obj).results = [] ∧
      (perform_bulk_updates client recs obj).errorLog.length = recs.length ∧
      ∀ p ∈ (perform_bulk_updates client recs obj).errorLog,
        ∃ m ∈ recs, p.1 = (dictGet m "Id").getD "Unknown ID in batch") := by
  refine ⟨?_, ?_, ?_⟩
  · unfold perform_bulk_updates
    by_cases he : recs.isEmpty
    · simp [he]
    · simp only [he, Bool.false_eq_true, if_false]
      cases hc : client recs 200 <;> simp
  · intro rs he hc
    have hpb : perform_bulk_updates client recs obj =
        ⟨rs,
          rs.filterMap (fun r =>
            if r.success then none
            else some (r.resId.getD "Unknown ID", joinErrors r.errors)), 1⟩ := by
      unfold perform_bulk_updates
      simp [he, hc]
    rw [hpb]
    refine ⟨rfl, length_filterMap_fail rs _, ?_⟩
    intro p hp
    rcases List.mem_filterMap.mp hp with ⟨r, hr, hfr⟩
    by_cases hs : r.success
    · simp [hs] at hfr
    · simp only [hs, Bool.false_eq_true, if_false, Option.some.injEq] at hfr
      exact ⟨r, hr, by simpa using hs, by rw [← hfr]⟩
  · intro e he hc
    have hpb : perform_bulk_updates client recs obj =
        ⟨[],
          recs.map (fun m =>
            ((dictGet m "Id").getD "Unknown ID in batch",
              "Batch failed due to Salesforce API error: " ++ e)), 1⟩ := by
      unfold perform_bulk_updates
      simp [he, hc]
    rw [hpb]
    refine ⟨rfl, List.length_map _ _, ?_⟩
    intro p hp
    rcases List.mem_map.mp hp with ⟨mrec, hm, hfm⟩
    exact ⟨mrec, hm, by rw [← hfm]⟩

/-- A bulk client that rejects its single record, used for the C8 witness. -/
def c8FailClient : List (List (String × String)) → Nat → Except String (List UpdateResult) :=
  fun _recs _batchSize => .ok [⟨false, some "001X", ["FIELD_INTEGRITY_EXCEPTION"]⟩]

/-- C8 witness: the amended dispatcher property evaluated at a concrete
one-record list whose bulk result is a per-record failure. -/
theorem c8_bulk_dispatch_witness :
    (perform_bulk_updates c8FailClient [[("Id", "001X"), ("Photo__c", "v")]] "Account").results =
      [⟨false, some "001X", ["FIELD_INTEGRITY_EXCEPTION"]⟩] ∧
    (perform_bulk_updates c8FailClient [[("Id", "001X"), ("Photo__c", "v")]]
        "Account").errorLog.length =
      (([⟨false, some "001X", ["FIELD_INTEGRITY_EXCEPTION"]⟩] : List UpdateResult).filter
        (fun r => !r.success)).length ∧
    ∀ p ∈ (perform_bulk_updates c8FailClient [[("Id", "001X"), ("Photo__c", "v")]]
        "Account").errorLog,
      ∃ r ∈ ([⟨false, some "001X", ["FIELD_INTEGRITY_EXCEPTION"]⟩] : List UpdateResult),
        r.success = false ∧ p.1 = r.resId.getD "Unknown ID" :=
  (c8_bulk_dispatch c8FailClient [[("Id", "001X"), ("Photo__c", "v")]] "Account").2.1
    [⟨false, some "001X", ["FIELD_INTEGRITY_EXCEPTION"]⟩] rfl rfl

/-! ## Evaluation lemmas for `process_image` -/

/-- Trace emitted on the membership-hit path. -/
def queryTrace (obj name rid : String) : List Ev :=
  [Ev.crmGetRecord obj rid, Ev.membershipCheck name rid true, Ev.crmQueryCv name rid]

theorem get_sf_record_ok (crm : Crm) (obj rid : String) (r : SfRec)
    (hrec : findRec crm.recs rid = some r) : get_sf_record crm obj rid = .ok r := by
  unfold get_sf_record
  rw [hrec]

theorem process_image_eval_inconsistent
    (crm : Crm) (drive : String → List Nat) (obj fid name rid pf dom : String)
    (idx : String → List String) (r : SfRec)
    (hrec : findRec crm.recs rid = some r)
    (hmem : (idx rid).contains name = true)
    (hq : crm.cvs.filter (cvPred name rid) = []) :
    process_image crm drive obj fid name rid idx pf dom =
      (crm, none,
        "Error: " ++ ("Image " ++ name ++ " exists in Drive but not in Salesforce"),
        queryTrace obj name rid) := by
  unfold process_image get_sf_record check_existing_image queryTrace
  rw [hrec, hmem, hq]
  rfl

theorem process_image_eval_existing
    (crm : Crm) (drive : String → List Nat) (obj fid name rid pf dom : String)
    (idx : String → List String) (r : SfRec) (cv : ContentVersion)
    (rest : List ContentVersion)
    (hrec : findRec crm.recs rid = some r)
    (hmem : (idx rid).contains name = true)
    (hq : crm.cvs.filter (cvPred name rid) = cv :: rest) :
    process_image crm drive obj fid name rid idx pf dom =
      if normalizeHtml (r.photo.getD "") =
          normalizeHtml (existing_image_tag dom name cv.cvId cv.docId)
      then (crm, none, "Skipped", queryTrace obj name rid)
      else (crm, some (mkMutation rid pf (existing_image_tag dom name cv.cvId cv.docId)),
        foreGreen ++ "Updated" ++ styleReset, queryTrace obj name rid) := by
  unfold process_image get_sf_record check_existing_image queryTrace
  rw [hrec, hmem, hq]
  by_cases h : normalizeHtml (r.photo.getD "") =
      normalizeHtml (existing_image_tag dom name cv.cvId cv.docId)
  · simp [h]
  · simp [h, bne_iff_ne]

/-- The `ContentVersion` created by the upload path for the current state. -/
def freshCv (crm : Crm) (drive : String → List Nat) (fid name rid : String) :
    ContentVersion :=
  ⟨"CV" ++ toString crm.nextCv, "DOC" ++ toString crm.nextCv, name, rid,
    encode_image_to_base64 (drive fid)⟩

/-- Trace emitted on the upload path. -/
def uploadTrace (crm : Crm) (obj fid name rid : String) : List Ev :=
  [Ev.crmGetRecord obj rid, Ev.membershipCheck name rid false, Ev.driveDownload fid,
    Ev.crmGetRecord obj rid, Ev.crmCreateCv name rid,
    Ev.crmGetCv ("CV" ++ toString crm.nextCv)]

theorem process_image_eval_upload
    (crm : Crm) (drive : String → List Nat) (obj fid name rid pf dom : String)
    (idx : String → List String) (r : SfRec)
    (hrec : findRec crm.recs rid = some r)
    (hmem : (idx rid).contains name = false) :
    process_image crm drive obj fid name rid idx pf dom =
      ({ crm with
          cvs := crm.cvs ++ [freshCv crm drive fid name rid],
          nextCv := crm.nextCv + 1 },
        some (mkMutation rid pf
          (new_image_tag dom name ("CV" ++ toString crm.nextCv)
            ("DOC" ++ toString crm.nextCv))),
        foreGreen ++ "Loaded-Linked (Pass)" ++ styleReset,
        uploadTrace crm obj fid name rid) := by
  have hg := get_sf_record_ok crm obj rid r hrec
  unfold process_image check_existing_image upload_new_image freshCv uploadTrace
  rw [hg, hmem]
  rfl

theorem process_image_eval_norec
    (crm : Crm) (drive : String → List Nat) (obj fid name rid pf dom : String)
    (idx : String → List String)
    (hrec : findRec crm.recs rid = none) :
    process_image crm drive obj fid name rid idx pf dom =
      (crm, none, "Error: " ++ (obj ++ " with Id " ++ rid ++ " not found"),
        [Ev.crmGetRecord obj rid]) := by
  unfold process_image get_sf_record
  rw [hrec]

/-! ## Row accounting for the main loop -/

theorem processOne_rows_length (obj pf dom : String) (drive : String → List Nat)
    (idMap : String → Option (String × String)) (idx : String → List String)
    (acc : Acc) (item : DriveFile) :
    (processOne obj pf dom drive idMap idx acc item).rows.length = acc.rows.length + 1 := by
  unfold processOne
  cases hm : migrationIdOf obj item.name with
  | none => simp
  | some mid =>
    cases hi : idMap mid with
    | none => simp [hi]
    | some p =>
      obtain ⟨sfRecordId, recordName⟩ := p
      simp [hi]

theorem foldl_rows_length (obj pf dom : String) (drive : String → List Nat)
    (idMap : String → Option (String × String)) (idx : String → List String) :
    ∀ (items : List DriveFile) (acc : Acc),
      (items.foldl (processOne obj pf dom drive idMap idx) acc).rows.length =
        acc.rows.length + items.length
  | [], acc => by simp
  | it :: rest, acc => by
    rw [List.foldl_cons, foldl_rows_length obj pf dom drive idMap idx rest _,
      processOne_rows_length]
    simp only [List.length_cons]
    omega

theorem process_drive_files_rows_length (obj pf dom : String) (drive : String → List Nat)
    (crm : Crm) (items : List DriveFile) :
    (process_drive_files obj pf dom drive crm items).rows.length = items.length := by
  unfold process_drive_files
  rw [foldl_rows_length]
  simp

/-- C1: when the attachment index lists a file for its record but the
targeted `ContentVersion` query returns zero rows, `process_image` yields the
outcome `Error` with the inconsistency message, produces no mutation record,
leaves the CRM state untouched (the file is not uploaded again — the trace
holds no download and no attachment creation), and the surrounding loop keeps
processing: every listing produces exactly one outcome row per file. -/
theorem c1_index_inconsistency_is_error
    (crm : Crm) (drive : String → List Nat) (obj fid name rid pf dom : String)
    (idx : String → List String) (r : SfRec)
    (hrec : findRec crm.recs rid = some r)
    (hmem : (idx rid).contains name = true)
    (hq : crm.cvs.filter (cvPred name rid) = []) :
    (process_image crm drive obj fid name rid idx pf dom =
      (crm, none,
        "Error: " ++ ("Image " ++ name ++ " exists in Drive but not in Salesforce"),
        queryTrace obj name rid)) ∧
    (∀ e ∈ queryTrace obj name rid, e.isDownload = false ∧ e.isCreate = false) ∧
    (∀ (items : List DriveFile) (pf2 dom2 : String) (drive2 : String → List Nat)
        (crm2 : Crm),
      (process_drive_files obj pf2 dom2 drive2 crm2 items).rows.length = items.length) := by
  refine ⟨process_image_eval_inconsistent crm drive obj fid name rid pf dom idx r hrec hmem hq,
    ?_, ?_⟩
  · intro e he
    simp only [queryTrace, List.mem_cons, List.not_mem_nil, or_false] at he
    rcases he with rfl | rfl | rfl <;> exact ⟨rfl, rfl⟩
  · intro items pf2 dom2 drive2 crm2
    exact process_drive_files_rows_length obj pf2 dom2 drive2 crm2 items

/-- Concrete one-record CRM state used by several witnesses. -/
def wCrm : Crm := ⟨[⟨"R1", "Rec One", some "5", none⟩], [], 0⟩

/-- C1 witness: the inconsistency behavior evaluated at a concrete state
whose index claims `photo5.jpg` is attached while the CRM holds no
`ContentVersion` rows at all. -/
theorem c1_index_inconsistency_is_error_witness :
    process_image wCrm (fun _ => []) "Contact" "f1" "photo5.jpg" "R1"
        (fun _ => ["photo5.jpg"]) "Photo__c" "D" =
      (wCrm, none,
        "Error: " ++ ("Image " ++ "photo5.jpg" ++ " exists in Drive but not in Salesforce"),
        queryTrace "Contact" "photo5.jpg" "R1") :=
  (c1_index_inconsistency_is_error wCrm (fun _ => []) "Contact" "f1" "photo5.jpg" "R1"
    "Photo__c" "D" (fun _ => ["photo5.jpg"]) ⟨"R1", "Rec One", some "5", none⟩
    (by rfl) (by rfl) (by rfl)).1

/-- C2: for a file the attachment index lists and the targeted query finds,
`process_image` yields `Skipped` with no mutation exactly when the normalized
stored field equals the normalized canonical tag, and otherwise stages a
mutation setting the field to the canonical tag with outcome `Updated`; an
empty or missing stored value (which normalizes to the empty string) always
takes the `Updated` branch. -/
theorem c2_skip_iff_normalized_equal
    (crm : Crm) (drive : String → List Nat) (obj fid name rid pf dom : String)
    (idx : String → List String) (r : SfRec) (cv : ContentVersion)
    (rest : List ContentVersion)
    (hrec : findRec crm.recs rid = some r)
    (hmem : (idx rid).contains name = true)
    (hq : crm.cvs.filter (cvPred name rid) = cv :: rest) :
    (process_image crm drive obj fid name rid idx pf dom =
      if normalizeHtml (r.photo.getD "") =
          normalizeHtml (existing_image_tag dom name cv.cvId cv.docId)
      then (crm, none, "Skipped", queryTrace obj name rid)
      else (crm, some (mkMutation rid pf (existing_image_tag dom name cv.cvId cv.docId)),
        foreGreen ++ "Updated" ++ styleReset, queryTrace obj name rid)) ∧
    (r.photo.getD "" = "" →
      (process_image crm drive obj fid name rid idx pf dom).2.1 =
        some (mkMutation rid pf (existing_image_tag dom name cv.cvId cv.docId)) ∧
      (process_image crm drive obj fid name rid idx pf dom).2.2.1 =
        foreGreen ++ "Updated" ++ styleReset) := by
  have heval := process_image_eval_existing crm drive obj fid name rid pf dom idx r cv rest
    hrec hmem hq
  refine ⟨heval, ?_⟩
  intro hempty
  have hcond : ¬ (normalizeHtml (r.photo.getD "") =
      normalizeHtml (existing_image_tag dom name cv.cvId cv.docId)) := by
    rw [hempty, normalizeHtml_empty]
    exact fun h => normalizeHtml_existing_ne_empty dom name cv.cvId cv.docId h.symm
  rw [heval, if_neg hcond]
  exact ⟨rfl, rfl⟩

/-- Concrete CRM state with the photo already attached but the field empty. -/
def wCrm2 : Crm :=
  ⟨[⟨"R1", "Rec One", some "5", none⟩], [⟨"CV1", "DOC1", "photo5.jpg", "R1", "x"⟩], 1⟩

/-- C2 witness: the skip/update decision evaluated at a concrete state whose
stored field is empty: the result is a staged mutation with outcome
`Updated`. -/
theorem c2_skip_iff_normalized_equal_witness :
    (process_image wCrm2 (fun _ => []) "Contact" "f1" "photo5.jpg" "R1"
        (existingImages wCrm2) "Photo__c" "D").2.1 =
      some (mkMutation "R1" "Photo__c" (existing_image_tag "D" "photo5.jpg" "CV1" "DOC1")) ∧
    (process_image wCrm2 (fun _ => []) "Contact" "f1" "photo5.jpg" "R1"
        (existingImages wCrm2) "Photo__c" "D").2.2.1 =
      foreGreen ++ "Updated" ++ styleReset :=
  (c2_skip_iff_normalized_equal wCrm2 (fun _ => []) "Contact" "f1" "photo5.jpg" "R1"
    "Photo__c" "D" (existingImages wCrm2) ⟨"R1", "Rec One", some "5", none⟩
    ⟨"CV1", "DOC1", "photo5.jpg", "R1", "x"⟩ [] (by rfl) (by rfl) (by rfl)).2 (by rfl)

/-! ## Trace ordering (C5) -/

theorem process_image_trace_shape
    (crm : Crm) (drive : String → List Nat) (obj fid name rid pf dom : String)
    (idx : String → List String) :
    ((process_image crm drive obj fid name rid idx pf dom).2.2.2 =
        [Ev.crmGetRecord obj rid]) ∨
    ((idx rid).contains name = true ∧
      (process_image crm drive obj fid name rid idx pf dom).2.2.2 =
        queryTrace obj name rid) ∨
    ((idx rid).contains name = false ∧
      (process_image crm drive obj fid name rid idx pf dom).2.2.2 =
        uploadTrace crm obj fid name rid) := by
  cases hrec : findRec crm.recs rid with
  | none =>
    left
    rw [process_image_eval_norec crm drive obj fid name rid pf dom idx hrec]
  | some r =>
    by_cases hmem : (idx rid).contains name = true
    · right; left
      refine ⟨hmem, ?_⟩
      cases hq : crm.cvs.filter (cvPred name rid) with
      | nil =>
        rw [process_image_eval_inconsistent crm drive obj fid name rid pf dom idx r
          hrec hmem hq]
      | cons cv rest =>
        rw [process_image_eval_existing crm drive obj fid name rid pf dom idx r cv rest
          hrec hmem hq]
        by_cases hc : normalizeHtml (r.photo.getD "") =
            normalizeHtml (existing_image_tag dom name cv.cvId cv.docId)
        · rw [if_pos hc]
        · rw [if_neg hc]
    · right; right
      have hmem' : (idx rid).contains name = false := by
        simpa using hmem
      refine ⟨hmem', ?_⟩
      rw [process_image_eval_upload crm drive obj fid name rid pf dom idx r hrec hmem']

/-- C5 counterexample: at a concrete input, the first event of the per-file
trace is a CRM network call (`get_sf_record`, common_functions.py:311), and
the membership check only comes second — so the membership check is not
performed before every network call for the file. -/
theorem c5_crm_call_precedes_membership_check :
    ((process_image wCrm (fun _ => []) "Contact" "f1" "photo5.jpg" "R1"
        (existingImages wCrm) "Photo__c" "D").2.2.2.take 2 =
      [Ev.crmGetRecord "Contact" "R1", Ev.membershipCheck "photo5.jpg" "R1" false]) ∧
    Ev.isNetwork (Ev.crmGetRecord "Contact" "R1") = true := by
  exact ⟨rfl, rfl⟩

/-- C5 (amended): for every file, the only network call preceding the
attachment-index membership check is the single CRM record fetch (no storage
call precedes it; when the fetch fails the trace is that single event); for a
file whose name is in the index no download and no attachment creation ever
happens; a download happens only when the membership check came back
negative (membership is the only "already uploaded" signal); and the only
storage operation ever performed for a file is the download of that file's
bytes — storage is never re-queried. -/
theorem c5_membership_gates_storage
    (crm : Crm) (drive : String → List Nat) (obj fid name rid pf dom : String)
    (idx : String → List String) :
    ((process_image crm drive obj fid name rid idx pf dom).2.2.2 =
        [Ev.crmGetRecord obj rid] ∨
      ∃ mb rest, (process_image crm drive obj fid name rid idx pf dom).2.2.2 =
        Ev.crmGetRecord obj rid :: Ev.membershipCheck name rid mb :: rest) ∧
    ((idx rid).contains name = true →
      ∀ e ∈ (process_image crm drive obj fid name rid idx pf dom).2.2.2,
        e.isDownload = false ∧ e.isCreate = false) ∧
    (∀ e ∈ (process_image crm drive obj fid name rid idx pf dom).2.2.2,
      e.isDownload = true → (idx rid).contains name = false) ∧
    (∀ e ∈ (process_image crm drive obj fid name rid idx pf dom).2.2.2,
      e.isStorage = true → e = Ev.driveDownload fid) := by
  rcases process_image_trace_shape crm drive obj fid name rid pf dom idx with
    h | ⟨hmem, h⟩ | ⟨hmem, h⟩ <;> rw [h]
  · refine ⟨Or.inl rfl, ?_, ?_, ?_⟩
    · intro _ e he
      simp only [List.mem_singleton] at he
      subst he
      exact ⟨rfl, rfl⟩
    · intro e he hd
      simp only [List.mem_singleton] at he
      subst he
      simp [Ev.isDownload] at hd
    · intro e he hs
      simp only [List.mem_singleton] at he
      subst he
      simp [Ev.isStorage] at hs
  · refine ⟨Or.inr ⟨true, _, rfl⟩, ?_, ?_, ?_⟩
    · intro _ e he
      simp only [queryTrace, List.mem_cons, List.not_mem_nil, or_false] at he
      rcases he with rfl | rfl | rfl <;> exact ⟨rfl, rfl⟩
    · intro e he hd
      simp only [queryTrace, List.mem_cons, List.not_mem_nil, or_false] at he
      rcases he with rfl | rfl | rfl <;> simp [Ev.isDownload] at hd
    · intro e he hs
      simp only [queryTrace, List.mem_cons, List.not_mem_nil, or_false] at he
      rcases he with rfl | rfl | rfl <;> simp [Ev.isStorage] at hs
  · refine ⟨Or.inr ⟨false, _, rfl⟩, ?_, ?_, ?_⟩
    · intro hmem2 _ _
      rw [hmem] at hmem2
      exact absurd hmem2 (by decide)
    · intro e _ _
      exact hmem
    · intro e he hs
      simp only [uploadTrace, List.mem_cons, List.not_mem_nil, or_false] at he
      rcases he with rfl | rfl | rfl | rfl | rfl | rfl <;>
        first
          | rfl
          | simp [Ev.isStorage] at hs

/-- C5 witness: the amended property applied at a concrete upload scenario:
the download event in the trace implies the file was not in the attachment
index. -/
theorem c5_membership_gates_storage_witness :
    (existingImages wCrm "R1").contains "photo5.jpg" = false :=
  (c5_membership_gates_storage wCrm (fun _ => []) "Contact" "f1" "photo5.jpg" "R1"
    "Photo__c" "D" (existingImages wCrm)).2.2.1 (Ev.driveDownload "f1") (by decide) rfl

/-! ## Summary counters (C6) -/

/-- The number of rows whose plain-text result classifies as "updated"
(result tag `Updated` or `Loaded-Linked (Pass)`), the per-row constant-time
classification the summary is supposed to agree with. -/
def specUpdatedRows (rows : List CsvRow) : Nat :=
  (rows.filter (fun row =>
    strip_color_codes row.processingResult == "Updated" ||
    strip_color_codes row.processingResult == "Loaded-Linked (Pass)")).length

/-- Concrete state for the counter bug: the photo is already attached and the
stored field is empty, so the single file yields outcome `Updated`. -/
def c6crm : Crm :=
  ⟨[⟨"R1", "Name1", some "5", none⟩], [⟨"CV1", "DOC1", "photo5.jpg", "R1", "x"⟩], 0⟩

/-- The single-file listing for the counter bug. -/
def c6items : List DriveFile := [⟨"f1", "photo5.jpg"⟩]

set_option maxRecDepth 20000 in
/-- C6 (code bug): the incremental `records_updated` counter tests
`"Loaded-Linked & Updated" in result` (common_functions.py:538), but
`process_image` only ever returns `Updated` or `Loaded-Linked (Pass)`
(common_functions.py:327, 334), so the counter never increments. At the
concrete run below the loop produces exactly one row whose result tag
classifies as updated, yet the summary's updated count is 0. -/
theorem c6_updated_counter_never_increments :
    (process_drive_files "Contact" "Photo__c" "D" (fun _ => []) c6crm c6items).updatedCount
      = 0 ∧
    specUpdatedRows
      (process_drive_files "Contact" "Photo__c" "D" (fun _ => []) c6crm c6items).rows = 1 ∧
    (process_drive_files "Contact" "Photo__c" "D" (fun _ => []) c6crm c6items).rows.map
      (fun row => row.processingResult) = [foreGreen ++ "Updated" ++ styleReset] ∧
    containsSub (foreGreen ++ "Updated" ++ styleReset) "Loaded-Linked & Updated" = false ∧
    containsSub (foreGreen ++ "Loaded-Linked (Pass)" ++ styleReset)
      "Loaded-Linked & Updated" = false := by
  exact ⟨rfl, rfl, rfl, by decide, by decide⟩

/-! ## Mutation-record provenance (C10) -/

theorem process_image_effects
    (crm : Crm) (drive : String → List Nat) (obj fid name rid pf dom : String)
    (idx : String → List String) :
    (process_image crm drive obj fid name rid idx pf dom).1.recs = crm.recs ∧
    ∃ extras, (process_image crm drive obj fid name rid idx pf dom).1.cvs =
        crm.cvs ++ extras ∧
      ∀ cv ∈ extras, cv.pathOnClient = name ∧ cv.firstPublishLocationId = rid := by
  cases hrec : findRec crm.recs rid with
  | none =>
    rw [process_image_eval_norec crm drive obj fid name rid pf dom idx hrec]
    exact ⟨rfl, [], by simp⟩
  | some r =>
    by_cases hmem : (idx rid).contains name = true
    · cases hq : crm.cvs.filter (cvPred name rid) with
      | nil =>
        rw [process_image_eval_inconsistent crm drive obj fid name rid pf dom idx r
          hrec hmem hq]
        exact ⟨rfl, [], by simp⟩
      | cons cv rest =>
        rw [process_image_eval_existing crm drive obj fid name rid pf dom idx r cv rest
          hrec hmem hq]
        by_cases hc : normalizeHtml (r.photo.getD "") =
            normalizeHtml (existing_image_tag dom name cv.cvId cv.docId)
        · rw [if_pos hc]
          exact ⟨rfl, [], by simp⟩
        · rw [if_neg hc]
          exact ⟨rfl, [], by simp⟩
    · have hmem' : (idx rid).contains name = false := by simpa using hmem
      rw [process_image_eval_upload crm drive obj fid name rid pf dom idx r hrec hmem']
      refine ⟨rfl, [freshCv crm drive fid name rid], rfl, ?_⟩
      intro cv hcv
      simp only [List.mem_singleton] at hcv
      subst hcv
      exact ⟨rfl, rfl⟩

theorem process_image_mutation_shape
    (crm : Crm) (drive : String → List Nat) (obj fid name rid pf dom : String)
    (idx : String → List String) :
    (process_image crm drive obj fid name rid idx pf dom).2.1 = none ∨
    ∃ t cv, (process_image crm drive obj fid name rid idx pf dom).2.1 =
        some (mkMutation rid pf t) ∧
      cv ∈ (process_image crm drive obj fid name rid idx pf dom).1.cvs ∧
      cv.pathOnClient = name ∧ cv.firstPublishLocationId = rid ∧
      (t = existing_image_tag dom name cv.cvId cv.docId ∨
        t = new_image_tag dom name cv.cvId cv.docId) := by
  cases hrec : findRec crm.recs rid with
  | none =>
    left
    rw [process_image_eval_norec crm drive obj fid name rid pf dom idx hrec]
  | some r =>
    by_cases hmem : (idx rid).contains name = true
    · cases hq : crm.cvs.filter (cvPred name rid) with
      | nil =>
        left
        rw [process_image_eval_inconsistent crm drive obj fid name rid pf dom idx r
          hrec hmem hq]
      | cons cv rest =>
        have hcv : cv ∈ crm.cvs ∧ cvPred name rid cv = true := by
          have : cv ∈ crm.cvs.filter (cvPred name rid) := by
            rw [hq]; exact List.mem_cons_self _ _
          exact List.mem_filter.mp this
        rw [process_image_eval_existing crm drive obj fid name rid pf dom idx r cv rest
          hrec hmem hq]
        by_cases hc : normalizeHtml (r.photo.getD "") =
            normalizeHtml (existing_image_tag dom name cv.cvId cv.docId)
        · left
          rw [if_pos hc]
        · right
          rw [if_neg hc]
          refine ⟨existing_image_tag dom name cv.cvId cv.docId, cv, rfl, hcv.1, ?_, ?_, Or.inl rfl⟩
          · have := hcv.2
            simp only [cvPred, Bool.and_eq_true, beq_iff_eq] at this
            exact this.1
          · have := hcv.2
            simp only [cvPred, Bool.and_eq_true, beq_iff_eq] at this
            exact this.2
    · have hmem' : (idx rid).contains name = false := by simpa using hmem
      right
      rw [process_image_eval_upload crm drive obj fid name rid pf dom idx r hrec hmem']
      exact ⟨new_image_tag dom name ("CV" ++ toString crm.nextCv) ("DOC" ++ toString crm.nextCv),
        freshCv crm drive fid name rid, rfl, by simp, rfl, rfl, Or.inr rfl⟩

/-- Provenance of one staged mutation record: it was built by `mkMutation`
from a record id the index resolves for some file name and carries the
canonical tag of an attachment of that record bearing that file name. -/
def GoodMutation (obj pf dom : String) (idMap : String → Option (String × String))
    (cvs : List ContentVersion) (nm : String) (m : List (String × String)) : Prop :=
  ∃ mid rid rname t cv,
    migrationIdOf obj nm = some mid ∧ idMap mid = some (rid, rname) ∧
    m = mkMutation rid pf t ∧ cv ∈ cvs ∧ cv.pathOnClient = nm ∧
    cv.firstPublishLocationId = rid ∧
    (t = existing_image_tag dom nm cv.cvId cv.docId ∨
      t = new_image_tag dom nm cv.cvId cv.docId)

theorem GoodMutation_mono (obj pf dom : String) (idMap : String → Option (String × String))
    (cvs1 cvs2 : List ContentVersion) (nm : String) (m : List (String × String))
    (hsub : ∀ cv, cv ∈ cvs1 → cv ∈ cvs2) :
    GoodMutation obj pf dom idMap cvs1 nm m → GoodMutation obj pf dom idMap cvs2 nm m := by
  rintro ⟨mid, rid, rname, t, cv, h1, h2, h3, h4, h5, h6, h7⟩
  exact ⟨mid, rid, rname, t, cv, h1, h2, h3, hsub cv h4, h5, h6, h7⟩

theorem processOne_step_good (obj pf dom : String) (drive : String → List Nat)
    (idMap : String → Option (String × String)) (idx : String → List String)
    (acc : Acc) (item : DriveFile) :
    ((processOne obj pf dom drive idMap idx acc item).crm.recs = acc.crm.recs) ∧
    (∃ extras, (processOne obj pf dom drive idMap idx acc item).crm.cvs =
      acc.crm.cvs ++ extras) ∧
    ∀ m ∈ (processOne obj pf dom drive idMap idx acc item).updates,
      m ∈ acc.updates ∨
        GoodMutation obj pf dom idMap
          (processOne obj pf dom drive idMap idx acc item).crm.cvs item.name m := by
  unfold processOne
  cases hm : migrationIdOf obj item.name with
  | none =>
    refine ⟨rfl, ⟨[], by simp⟩, ?_⟩
    intro m hm2
    exact Or.inl hm2
  | some mid =>
    dsimp only
    cases hi : idMap mid with
    | none =>
      refine ⟨rfl, ⟨[], by simp⟩, ?_⟩
      intro m hm2
      exact Or.inl hm2
    | some p =>
      obtain ⟨sfRecordId, recordName⟩ := p
      obtain ⟨hrecs, extras, hcvs, _hextra⟩ :=
        process_image_effects acc.crm drive obj item.fid item.name sfRecordId pf dom idx
      refine ⟨hrecs, ⟨extras, hcvs⟩, ?_⟩
      intro m hm2
      simp only [List.mem_append] at hm2
      rcases hm2 with hm2 | hm2
      · exact Or.inl hm2
      · right
        rcases process_image_mutation_shape acc.crm drive obj item.fid item.name sfRecordId
          pf dom idx with hnone | ⟨t, cv, hsome, hcv, hpath, hloc, hform⟩
        · rw [hnone] at hm2
          simp at hm2
        · rw [hsome] at hm2
          simp only [Option.toList_some, List.mem_singleton] at hm2
          subst hm2
          exact ⟨mid, sfRecordId, recordName, t, cv, hm, hi, rfl, hcv, hpath, hloc, hform⟩

theorem foldl_updates_good (obj pf dom : String) (drive : String → List Nat)
    (idMap : String → Option (String × String)) (idx : String → List String) :
    ∀ (todo : List DriveFile) (acc : Acc),
      (∃ extras,
        (todo.foldl (processOne obj pf dom drive idMap idx) acc).crm.cvs =
          acc.crm.cvs ++ extras) ∧
      ∀ m ∈ (todo.foldl (processOne obj pf dom drive idMap idx) acc).updates,
        m ∈ acc.updates ∨
          ∃ it ∈ todo,
            GoodMutation obj pf dom idMap
              (todo.foldl (processOne obj pf dom drive idMap idx) acc).crm.cvs it.name m
  | [], acc => ⟨⟨[], by simp⟩, fun m hm => Or.inl hm⟩
  | it :: rest, acc => by
    rw [List.foldl_cons]
    obtain ⟨_, ⟨e1, he1⟩, hstep⟩ := processOne_step_good obj pf dom drive idMap idx acc it
    obtain ⟨⟨e2, he2⟩, hrest⟩ :=
      foldl_updates_good obj pf dom drive idMap idx rest
        (processOne obj pf dom drive idMap idx acc it)
    refine ⟨⟨e1 ++ e2, by rw [he2, he1, List.append_assoc]⟩, ?_⟩
    intro m hm
    have hmono : ∀ cv, cv ∈ (processOne obj pf dom drive idMap idx acc it).crm.cvs →
        cv ∈ (rest.foldl (processOne obj pf dom drive idMap idx)
          (processOne obj pf dom drive idMap idx acc it)).crm.cvs := by
      intro cv hcv
      rw [he2]
      exact List.mem_append_left _ hcv
    rcases hrest m hm with hm1 | ⟨it2, hit2, hgood⟩
    · rcases hstep m hm1 with hm0 | hgood
      · exact Or.inl hm0
      · exact Or.inr ⟨it, List.mem_cons_self _ _,
          GoodMutation_mono obj pf dom idMap _ _ it.name m hmono hgood⟩
    · exact Or.inr ⟨it2, List.mem_cons_of_mem _ hit2, hgood⟩

/-- C10: every mutation record the loop stages is, and stays, the two-key
mapping built at creation: its keys are exactly `Id` and the configured photo
field (assumed distinct from `Id`), its `Id` value is the record id the
record index resolves for the file's migration key, and its field value is
the canonical tag of an attachment of that record bearing the file's name. -/
theorem c10_mutation_record_shape (obj pf dom : String) (drive : String → List Nat)
    (crm : Crm) (items : List DriveFile) (hpf : pf ≠ "Id") :
    ∀ m ∈ (process_drive_files obj pf dom drive crm items).updates,
      ∃ it ∈ items, ∃ mid rid rname t,
        migrationIdOf obj it.name = some mid ∧
        buildIdMap crm mid = some (rid, rname) ∧
        m = [("Id", rid), (pf, t)] ∧
        m.map Prod.fst = ["Id", pf] ∧
        dictGet m "Id" = some rid ∧ dictGet m pf = some t ∧
        ∃ cv ∈ (process_drive_files obj pf dom drive crm items).crm.cvs,
          cv.pathOnClient = it.name ∧ cv.firstPublishLocationId = rid ∧
          (t = existing_image_tag dom it.name cv.cvId cv.docId ∨
            t = new_image_tag dom it.name cv.cvId cv.docId) := by
  intro m hm
  have hpfb : (pf == "Id") = false := beq_eq_false_iff_ne.mpr hpf
  have hpfb2 : ("Id" == pf) = false := beq_eq_false_iff_ne.mpr (Ne.symm hpf)
  obtain ⟨_, hall⟩ := foldl_updates_good obj pf dom drive (buildIdMap crm)
    (existingImages crm) items ⟨crm, [], [], 0, 0, 0, 0⟩
  rcases hall m hm with hm0 | ⟨it, hit, mid, rid, rname, t, cv, h1, h2, h3, h4, h5, h6, h7⟩
  · simp at hm0
  · have hmk : mkMutation rid pf t = [("Id", rid), (pf, t)] := by
      unfold mkMutation
      rw [hpfb]
      simp
    refine ⟨it, hit, mid, rid, rname, t, h1, h2, by rw [h3, hmk], ?_, ?_, ?_, cv, h4, h5, h6, h7⟩
    · rw [h3, hmk]
      rfl
    · rw [h3, hmk]
      rfl
    · rw [h3, hmk]
      unfold dictGet
      rw [List.find?_cons]
      simp [hpfb2]

set_option maxRecDepth 40000 in
/-- C10 witness: the mutation staged by the concrete `Updated` run of the C6
state has exactly the asserted provenance. -/
theorem c10_mutation_record_shape_witness :
    ∃ it ∈ c6items, ∃ mid rid rname t,
      migrationIdOf "Contact" it.name = some mid ∧
      buildIdMap c6crm mid = some (rid, rname) ∧
      mkMutation "R1" "Photo__c" (existing_image_tag "D" "photo5.jpg" "CV1" "DOC1") =
        [("Id", rid), ("Photo__c", t)] ∧
      (mkMutation "R1" "Photo__c"
        (existing_image_tag "D" "photo5.jpg" "CV1" "DOC1")).map Prod.fst =
        ["Id", "Photo__c"] ∧
      dictGet (mkMutation "R1" "Photo__c"
        (existing_image_tag "D" "photo5.jpg" "CV1" "DOC1")) "Id" = some rid ∧
      dictGet (mkMutation "R1" "Photo__c"
        (existing_image_tag "D" "photo5.jpg" "CV1" "DOC1")) "Photo__c" = some t ∧
      ∃ cv ∈ (process_drive_files "Contact" "Photo__c" "D" (fun _ => []) c6crm
          c6items).crm.cvs,
        cv.pathOnClient = it.name ∧ cv.firstPublishLocationId = rid ∧
        (t = existing_image_tag "D" it.name cv.cvId cv.docId ∨
          t = new_image_tag "D" it.name cv.cvId cv.docId) :=
  c10_mutation_record_shape "Contact" "Photo__c" "D" (fun _ => []) c6crm c6items
    (by decide)
    (mkMutation "R1" "Photo__c" (existing_image_tag "D" "photo5.jpg" "CV1" "DOC1"))
    (by decide)

/-! ## Idempotence machinery (C3)

A second run is all-`Skipped` only when no two listed files resolve to the
same CRM record; the development below proves the amended statement and the
counterexample shows the unrestricted claim fails. -/

/-- The stored photo-field value `sf_record.get(photo_field, '') or ""` the
comparison reads for a record id. -/
def fieldOf (crm : Crm) (rid : String) : String :=
  ((findRec crm.recs rid).bind (fun r => r.photo)).getD ""

/-- The staged mutations addressed to one record id. -/
def mutsFor (rid : String) (ms : List (List (String × String))) :
    List (List (String × String)) :=
  ms.filter (fun m => dictGet m "Id" == some rid)

/-- The record ids the listing's files resolve to, in order, resolved files
only. -/
def ridsOf (obj : String) (idMap : String → Option (String × String))
    (its : List DriveFile) : List String :=
  its.filterMap (fun it => ((migrationIdOf obj it.name).bind idMap).map (fun p => p.1))

theorem dictGet_mkMutation_id (rid pf t : String) (hpf : pf ≠ "Id") :
    dictGet (mkMutation rid pf t) "Id" = some rid := by
  unfold mkMutation dictGet
  rw [beq_eq_false_iff_ne.mpr hpf]
  simp

theorem dictGet_mkMutation_pf (rid pf t : String) (hpf : pf ≠ "Id") :
    dictGet (mkMutation rid pf t) pf = some t := by
  unfold mkMutation dictGet
  rw [beq_eq_false_iff_ne.mpr hpf]
  simp only [Bool.false_eq_true, if_false, List.find?_cons,
    beq_eq_false_iff_ne.mpr (Ne.symm hpf)]
  simp

theorem mutsFor_append (rid : String) (a b : List (List (String × String))) :
    mutsFor rid (a ++ b) = mutsFor rid a ++ mutsFor rid b :=
  List.filter_append _ _

theorem mutsFor_mkMutation (rid pf t : String) (hpf : pf ≠ "Id") :
    mutsFor rid [mkMutation rid pf t] = [mkMutation rid pf t] := by
  unfold mutsFor
  rw [List.filter_cons]
  simp [dictGet_mkMutation_id rid pf t hpf]

theorem mutsFor_mkMutation_ne (rid rid2 pf t : String) (hpf : pf ≠ "Id")
    (hne : rid2 ≠ rid) : mutsFor rid [mkMutation rid2 pf t] = [] := by
  unfold mutsFor
  rw [List.filter_cons]
  have : (dictGet (mkMutation rid2 pf t) "Id" == some rid) = false := by
    rw [dictGet_mkMutation_id rid2 pf t hpf]
    exact beq_eq_false_iff_ne.mpr (by simpa using hne)
  simp [this]

theorem contains_existingImages (crm : Crm) (rid name : String) :
    ((existingImages crm rid).contains name = true) ↔
      (crm.recs.any (fun r => r.rid == rid) = true ∧
        ∃ cv ∈ crm.cvs, cv.pathOnClient = name ∧ cv.firstPublishLocationId = rid) := by
  unfold existingImages
  by_cases ha : crm.recs.any (fun r => r.rid == rid) = true
  · simp only [ha, if_true, true_and]
    rw [List.elem_iff]
    constructor
    · intro h
      rcases List.mem_map.mp h with ⟨cv, hcv, hname⟩
      rcases List.mem_filter.mp hcv with ⟨hmem, hloc⟩
      exact ⟨cv, hmem, hname.symm ▸ rfl, beq_iff_eq.mp hloc⟩
    · rintro ⟨cv, hmem, hname, hloc⟩
      exact List.mem_map.mpr ⟨cv, List.mem_filter.mpr ⟨hmem, beq_iff_eq.mpr hloc⟩, hname⟩
  · have ha2 : crm.recs.any (fun r => r.rid == rid) = false := by simpa using ha
    rw [if_neg (by simp [ha2])]
    constructor
    · intro h
      simp [List.elem_iff] at h
    · rintro ⟨h1, -⟩
      rw [ha2] at h1
      exact absurd h1 (by simp)

theorem buildIdMap_some (crm : Crm) (mid rid rname : String)
    (h : buildIdMap crm mid = some (rid, rname)) :
    ∃ r, findRec crm.recs rid = some r := by
  unfold buildIdMap at h
  cases hf : crm.recs.reverse.find? (fun r => r.migId == some mid) with
  | none => rw [hf] at h; simp at h
  | some r0 =>
    rw [hf] at h
    simp only [Option.map_some', Option.some.injEq, Prod.mk.injEq] at h
    have hr0 : r0 ∈ crm.recs := List.mem_reverse.mp (List.mem_of_find?_eq_some hf)
    have : (findRec crm.recs rid).isSome = true := by
      unfold findRec
      exact List.find?_isSome.mpr ⟨r0, hr0, by rw [h.1]; simp⟩
    exact Option.isSome_iff_exists.mp this

theorem any_rid_of_findRec (crm : Crm) (rid : String) (r : SfRec)
    (h : findRec crm.recs rid = some r) :
    crm.recs.any (fun x => x.rid == rid) = true := by
  have h2 : List.find? (fun x => x.rid == rid) crm.recs = some r := h
  have hm : r ∈ crm.recs := List.mem_of_find?_eq_some h2
  have hp : (r.rid == rid) = true := by
    have := List.find?_some h2
    simpa using this
  exact List.any_eq_true.mpr ⟨r, hm, hp⟩

/-! Effect of applying the staged mutations on record lookup. -/

theorem findRec_applyUpdate (pf : String) (recs : List SfRec)
    (m : List (String × String)) (rid : String) :
    findRec (applyUpdate pf recs m) rid =
      (findRec recs rid).map (fun r =>
        if some r.rid == dictGet m "Id" then { r with photo := dictGet m pf } else r) := by
  unfold findRec applyUpdate
  induction recs with
  | nil => rfl
  | cons r0 rest ih =>
    simp only [List.map_cons, List.find?_cons]
    have hrid : (if some r0.rid == dictGet m "Id" then { r0 with photo := dictGet m pf }
        else r0).rid = r0.rid := by
      split <;> rfl
    rw [hrid]
    by_cases h : (r0.rid == rid) = true
    · simp [h]
    · have h2 : (r0.rid == rid) = false := by simpa using h
      simp only [h2]
      exact ih

theorem findRec_applyUpdates_none (pf rid : String) :
    ∀ (ms : List (List (String × String))) (recs : List SfRec),
      mutsFor rid ms = [] →
      findRec (applyUpdates pf recs ms) rid = findRec recs rid
  | [], recs, _ => rfl
  | m :: rest, recs, h => by
    unfold mutsFor at h
    rw [List.filter_cons] at h
    by_cases hm : (dictGet m "Id" == some rid) = true
    · rw [if_pos hm] at h
      simp at h
    · have hmf : (dictGet m "Id" == some rid) = false := by simpa using hm
      rw [if_neg (by simp [hmf])] at h
      unfold applyUpdates
      rw [List.foldl_cons]
      have hrec := findRec_applyUpdates_none pf rid rest (applyUpdate pf recs m) h
      unfold applyUpdates at hrec
      rw [hrec, findRec_applyUpdate]
      cases hf : findRec recs rid with
      | none => rfl
      | some r =>
        simp only [Option.map_some']
        have hf2 : List.find? (fun x => x.rid == rid) recs = some r := hf
        have hr : (r.rid == rid) = true := by
          have := List.find?_some hf2
          simpa using this
        have hcond : (some r.rid == dictGet m "Id") = false := by
          have h1 : r.rid = rid := beq_iff_eq.mp hr
          rw [h1]
          rcases hd : dictGet m "Id" with _ | v
          · rfl
          · rw [hd] at hmf
            have hv : v ≠ rid := fun hv => by
              rw [hv] at hmf
              simp at hmf
            exact beq_eq_false_iff_ne.mpr (by simpa using (Ne.symm hv))
        simp [hcond]

theorem findRec_applyUpdates_one (pf rid : String) (m0 : List (String × String)) :
    ∀ (ms : List (List (String × String))) (recs : List SfRec) (r : SfRec),
      mutsFor rid ms = [m0] → findRec recs rid = some r →
      findRec (applyUpdates pf recs ms) rid = some { r with photo := dictGet m0 pf }
  | [], _recs, _r, h, _ => by simp [mutsFor] at h
  | m :: rest, recs, r, h, hf => by
    have hf2 : List.find? (fun x => x.rid == rid) recs = some r := hf
    have hr : (r.rid == rid) = true := by
      have := List.find?_some hf2
      simpa using this
    have hreq : r.rid = rid := beq_iff_eq.mp hr
    unfold mutsFor at h
    rw [List.filter_cons] at h
    by_cases hm : (dictGet m "Id" == some rid) = true
    · rw [if_pos (by simp [hm])] at h
      have h1 : m = m0 := (List.cons.injEq _ _ _ _ ▸ h).1
      have h2 : rest.filter (fun m => dictGet m "Id" == some rid) = [] :=
        (List.cons.injEq _ _ _ _ ▸ h).2
      subst h1
      unfold applyUpdates
      rw [List.foldl_cons]
      have hrec := findRec_applyUpdates_none pf rid rest (applyUpdate pf recs m) h2
      unfold applyUpdates at hrec
      rw [hrec, findRec_applyUpdate, hf]
      simp only [Option.map_some']
      have : (some r.rid == dictGet m "Id") = true := by
        rw [hreq, beq_iff_eq.mp hm]
        simp
      simp [this]
    · have hmf : (dictGet m "Id" == some rid) = false := by simpa using hm
      rw [if_neg (by simp [hmf])] at h
      unfold applyUpdates
      rw [List.foldl_cons]
      have hstep : findRec (applyUpdate pf recs m) rid = some r := by
        rw [findRec_applyUpdate, hf]
        simp only [Option.map_some']
        have : (some r.rid == dictGet m "Id") = false := by
          rw [hreq]
          rcases hd : dictGet m "Id" with _ | v
          · rfl
          · rw [hd] at hmf
            have hv : v ≠ rid := fun hv => by
              rw [hv] at hmf
              simp at hmf
            exact beq_eq_false_iff_ne.mpr (by simpa using (Ne.symm hv))
        simp [this]
      have := findRec_applyUpdates_one pf rid m0 rest (applyUpdate pf recs m) r h hstep
      unfold applyUpdates at this
      exact this

/-! The bulk update changes only photo fields: id, name and migration id are
preserved, so the record index rebuilt on a second run coincides with the
first run's. -/

theorem applyUpdate_shape (pf : String) (recs : List SfRec) (m : List (String × String)) :
    (applyUpdate pf recs m).map (fun r => (r.rid, r.name, r.migId)) =
      recs.map (fun r => (r.rid, r.name, r.migId)) := by
  unfold applyUpdate
  rw [List.map_map]
  apply List.map_congr_left
  intro r _
  simp only [Function.comp_apply]
  by_cases h : (some r.rid == dictGet m "Id") = true
  · rw [if_pos h]
  · rw [if_neg h]

theorem applyUpdates_shape (pf : String) :
    ∀ (ms : List (List (String × String))) (recs : List SfRec),
      (applyUpdates pf recs ms).map (fun r => (r.rid, r.name, r.migId)) =
        recs.map (fun r => (r.rid, r.name, r.migId))
  | [], _ => rfl
  | m :: rest, recs => by
    unfold applyUpdates
    rw [List.foldl_cons]
    have := applyUpdates_shape pf rest (applyUpdate pf recs m)
    unfold applyUpdates at this
    rw [this, applyUpdate_shape]

theorem find?_mig_of_shape (recs1 recs2 : List SfRec) (mid : String)
    (h : recs1.map (fun r => (r.rid, r.name, r.migId)) =
      recs2.map (fun r => (r.rid, r.name, r.migId))) :
    (recs1.find? (fun r => r.migId == some mid)).map (fun r => (r.rid, r.name)) =
      (recs2.find? (fun r => r.migId == some mid)).map (fun r => (r.rid, r.name)) := by
  induction recs1 generalizing recs2 with
  | nil =>
    cases recs2 with
    | nil => rfl
    | cons b bs => simp at h
  | cons a as ih =>
    cases recs2 with
    | nil => simp at h
    | cons b bs =>
      simp only [List.map_cons, List.cons.injEq, Prod.mk.injEq] at h
      obtain ⟨⟨hrid, hname, hmig⟩, htail⟩ := h
      simp only [List.find?_cons, hmig]
      by_cases hp : (b.migId == some mid) = true
      · simp [hp, hrid, hname]
      · have hp2 : (b.migId == some mid) = false := by simpa using hp
        simp only [hp2]
        exact ih bs htail

theorem any_rid_of_shape (recs1 recs2 : List SfRec) (rid : String)
    (h : recs1.map (fun r => (r.rid, r.name, r.migId)) =
      recs2.map (fun r => (r.rid, r.name, r.migId))) :
    recs1.any (fun r => r.rid == rid) = recs2.any (fun r => r.rid == rid) := by
  induction recs1 generalizing recs2 with
  | nil =>
    cases recs2 with
    | nil => rfl
    | cons b bs => simp at h
  | cons a as ih =>
    cases recs2 with
    | nil => simp at h
    | cons b bs =>
      simp only [List.map_cons, List.cons.injEq, Prod.mk.injEq] at h
      obtain ⟨⟨hrid, _, _⟩, htail⟩ := h
      simp only [List.any_cons, hrid, ih bs htail]

/-! ## Per-item evaluation of the main loop body -/

theorem processOne_eval_invalid (obj pf dom : String) (drive : String → List Nat)
    (idMap : String → Option (String × String)) (idx : String → List String)
    (acc : Acc) (item : DriveFile)
    (hm : migrationIdOf obj item.name = none) :
    processOne obj pf dom drive idMap idx acc item =
      { acc with
        rows := acc.rows ++ [⟨none, "N/A", "N/A", item.name, "Invalid file name format"⟩],
        errorCount := acc.errorCount + 1 } := by
  unfold processOne
  rw [hm]

theorem processOne_eval_notfound (obj pf dom : String) (drive : String → List Nat)
    (idMap : String → Option (String × String)) (idx : String → List String)
    (acc : Acc) (item : DriveFile) (mid : String)
    (hm : migrationIdOf obj item.name = some mid) (hi : idMap mid = none) :
    processOne obj pf dom drive idMap idx acc item =
      { acc with
        rows := acc.rows ++ [⟨none, "N/A", mid, item.name, "SF Record Not Found"⟩],
        errorCount := acc.errorCount + 1 } := by
  unfold processOne
  rw [hm]
  dsimp only
  rw [hi]

theorem processOne_eval_resolved (obj pf dom : String) (drive : String → List Nat)
    (idMap : String → Option (String × String)) (idx : String → List String)
    (acc : Acc) (item : DriveFile) (mid rid rname : String)
    (hm : migrationIdOf obj item.name = some mid)
    (hi : idMap mid = some (rid, rname)) :
    (processOne obj pf dom drive idMap idx acc item).crm =
        (process_image acc.crm drive obj item.fid item.name rid idx pf dom).1 ∧
    (processOne obj pf dom drive idMap idx acc item).updates =
        acc.updates ++
          (process_image acc.crm drive obj item.fid item.name rid idx pf dom).2.1.toList ∧
    (processOne obj pf dom drive idMap idx acc item).rows =
        acc.rows ++ [⟨some rid, rname, mid, item.name,
          (process_image acc.crm drive obj item.fid item.name rid idx pf dom).2.2.1⟩] := by
  unfold processOne
  rw [hm]
  dsimp only
  rw [hi]
  exact ⟨rfl, rfl, rfl⟩

/-! ## Run-1 invariants -/

/-- Shape of the loop state after processing a prefix of the listing whose
resolved record ids are `doneRids`: the record table is untouched, the
`ContentVersion` table has only grown by uploads for processed records, and
every staged mutation addresses a processed record. -/
def StateInv (crm0 : Crm) (doneRids : List String) (acc : Acc) : Prop :=
  acc.crm.recs = crm0.recs ∧
  (∃ extras, acc.crm.cvs = crm0.cvs ++ extras ∧
    ∀ cv ∈ extras, cv.firstPublishLocationId ∈ doneRids) ∧
  (∀ m ∈ acc.updates, ∃ rid2, rid2 ∈ doneRids ∧ dictGet m "Id" = some rid2)

/-- What holds for a processed file (name, record id): the targeted query now
finds an attachment, and either no mutation was staged for the record and the
starting field value already normalizes to the canonical tag of the query's
head, or exactly one mutation was staged whose value normalizes to it. -/
def PostFile (pf dom : String) (crm0 : Crm) (name rid : String) (acc : Acc) : Prop :=
  ∃ cv rest, acc.crm.cvs.filter (cvPred name rid) = cv :: rest ∧
    ((mutsFor rid acc.updates = [] ∧
      normalizeHtml (fieldOf crm0 rid) =
        normalizeHtml (existing_image_tag dom name cv.cvId cv.docId)) ∨
     (∃ t, mutsFor rid acc.updates = [mkMutation rid pf t] ∧
       normalizeHtml t = normalizeHtml (existing_image_tag dom name cv.cvId cv.docId)))

theorem filter_extras_nil (name rid : String) (extras : List ContentVersion)
    (doneRids : List String) (hnew : rid ∉ doneRids)
    (hlocs : ∀ cv ∈ extras, cv.firstPublishLocationId ∈ doneRids) :
    extras.filter (cvPred name rid) = [] := by
  rw [List.filter_eq_nil_iff]
  intro cv hcv hpred
  have hloc : cv.firstPublishLocationId = rid := by
    simp only [cvPred, Bool.and_eq_true, beq_iff_eq] at hpred
    exact hpred.2
  exact hnew (hloc ▸ hlocs cv hcv)

theorem mutsFor_nil_of_fresh (rid : String) (doneRids : List String)
    (updates : List (List (String × String))) (hnew : rid ∉ doneRids)
    (hupd : ∀ m ∈ updates, ∃ rid2, rid2 ∈ doneRids ∧ dictGet m "Id" = some rid2) :
    mutsFor rid updates = [] := by
  unfold mutsFor
  rw [List.filter_eq_nil_iff]
  intro m hm hbeq
  obtain ⟨rid2, hrid2, hd⟩ := hupd m hm
  have heq : dictGet m "Id" = some rid := beq_iff_eq.mp hbeq
  rw [hd] at heq
  injection heq with heq2
  exact hnew (heq2 ▸ hrid2)

theorem fieldOf_eq (crm0 : Crm) (rid : String) (r : SfRec)
    (hr : findRec crm0.recs rid = some r) : fieldOf crm0 rid = r.photo.getD "" := by
  unfold fieldOf
  rw [hr]
  rfl

theorem processOne_establishes
    (obj pf dom : String) (drive : String → List Nat) (crm0 : Crm)
    (doneRids : List String) (acc : Acc) (item : DriveFile) (mid rid rname : String)
    (hpf : pf ≠ "Id")
    (hm : migrationIdOf obj item.name = some mid)
    (hi : buildIdMap crm0 mid = some (rid, rname))
    (hnew : rid ∉ doneRids)
    (hInv : StateInv crm0 doneRids acc) :
    StateInv crm0 (doneRids ++ [rid])
      (processOne obj pf dom drive (buildIdMap crm0) (existingImages crm0) acc item) ∧
    PostFile pf dom crm0 item.name rid
      (processOne obj pf dom drive (buildIdMap crm0) (existingImages crm0) acc item) := by
  obtain ⟨hrecs, ⟨extras, hcvs, hlocs⟩, hupd⟩ := hInv
  obtain ⟨r, hr0⟩ := buildIdMap_some crm0 mid rid rname hi
  have hr : findRec acc.crm.recs rid = some r := by rw [hrecs]; exact hr0
  obtain ⟨hcrm, hupd2, _hrows⟩ := processOne_eval_resolved obj pf dom drive (buildIdMap crm0)
    (existingImages crm0) acc item mid rid rname hm hi
  have hmuts0 : mutsFor rid acc.updates = [] :=
    mutsFor_nil_of_fresh rid doneRids acc.updates hnew hupd
  have hexfil : extras.filter (cvPred item.name rid) = [] :=
    filter_extras_nil item.name rid extras doneRids hnew hlocs
  by_cases hmem : (existingImages crm0 rid).contains item.name = true
  · obtain ⟨_hany, cv0, hcv0mem, hcv0name, hcv0loc⟩ :=
      (contains_existingImages crm0 rid item.name).mp hmem
    cases hq0 : crm0.cvs.filter (cvPred item.name rid) with
    | nil =>
      exfalso
      rw [List.filter_eq_nil_iff] at hq0
      exact hq0 cv0 hcv0mem (by simp [cvPred, hcv0name, hcv0loc])
    | cons cv rest =>
      have hq : acc.crm.cvs.filter (cvPred item.name rid) = cv :: rest := by
        rw [hcvs, List.filter_append, hq0, hexfil, List.append_nil]
      have heval := process_image_eval_existing acc.crm drive obj item.fid item.name rid
        pf dom (existingImages crm0) r cv rest hr hmem hq
      by_cases hcnd : normalizeHtml (r.photo.getD "") =
          normalizeHtml (existing_image_tag dom item.name cv.cvId cv.docId)
      · have hcrm2 : (processOne obj pf dom drive (buildIdMap crm0) (existingImages crm0)
            acc item).crm = acc.crm := by
          rw [hcrm, heval, if_pos hcnd]
        have hupd3 : (processOne obj pf dom drive (buildIdMap crm0) (existingImages crm0)
            acc item).updates = acc.updates := by
          rw [hupd2, heval, if_pos hcnd]
          simp
        refine ⟨⟨by rw [hcrm2]; exact hrecs,
          ⟨extras, by rw [hcrm2]; exact hcvs, ?_⟩, ?_⟩, ?_⟩
        · intro cv2 h2
          exact List.mem_append_left _ (hlocs cv2 h2)
        · intro m hm2
          rw [hupd3] at hm2
          obtain ⟨rid2, hrid2, hd⟩ := hupd m hm2
          exact ⟨rid2, List.mem_append_left _ hrid2, hd⟩
        · refine ⟨cv, rest, by rw [hcrm2]; exact hq, Or.inl ⟨by rw [hupd3]; exact hmuts0, ?_⟩⟩
          rw [fieldOf_eq crm0 rid r hr0]
          exact hcnd
      · have hcrm2 : (processOne obj pf dom drive (buildIdMap crm0) (existingImages crm0)
            acc item).crm = acc.crm := by
          rw [hcrm, heval, if_neg hcnd]
        have hupd3 : (processOne obj pf dom drive (buildIdMap crm0) (existingImages crm0)
            acc item).updates = acc.updates ++
              [mkMutation rid pf (existing_image_tag dom item.name cv.cvId cv.docId)] := by
          rw [hupd2, heval, if_neg hcnd]
          rfl
        refine ⟨⟨by rw [hcrm2]; exact hrecs,
          ⟨extras, by rw [hcrm2]; exact hcvs, ?_⟩, ?_⟩, ?_⟩
        · intro cv2 h2
          exact List.mem_append_left _ (hlocs cv2 h2)
        · intro m hm2
          rw [hupd3] at hm2
          rcases List.mem_append.mp hm2 with hold | hnew2
          · obtain ⟨rid2, hrid2, hd⟩ := hupd m hold
            exact ⟨rid2, List.mem_append_left _ hrid2, hd⟩
          · rw [List.mem_singleton] at hnew2
            subst hnew2
            exact ⟨rid, List.mem_append_right _ (List.mem_singleton.mpr rfl),
              dictGet_mkMutation_id rid pf _ hpf⟩
        · refine ⟨cv, rest, by rw [hcrm2]; exact hq,
            Or.inr ⟨existing_image_tag dom item.name cv.cvId cv.docId, ?_, rfl⟩⟩
          rw [hupd3, mutsFor_append, hmuts0, mutsFor_mkMutation rid pf _ hpf]
          simp
  · have hmemf : (existingImages crm0 rid).contains item.name = false := by simpa using hmem
    have heval := process_image_eval_upload acc.crm drive obj item.fid item.name rid pf dom
      (existingImages crm0) r hr hmemf
    have hcrm2 : (processOne obj pf dom drive (buildIdMap crm0) (existingImages crm0)
        acc item).crm =
        { acc.crm with
          cvs := acc.crm.cvs ++ [freshCv acc.crm drive item.fid item.name rid],
          nextCv := acc.crm.nextCv + 1 } := by
      rw [hcrm, heval]
    have hupd3 : (processOne obj pf dom drive (buildIdMap crm0) (existingImages crm0)
        acc item).updates = acc.updates ++
          [mkMutation rid pf (new_image_tag dom item.name ("CV" ++ toString acc.crm.nextCv)
            ("DOC" ++ toString acc.crm.nextCv))] := by
      rw [hupd2, heval]
      rfl
    have hq0 : crm0.cvs.filter (cvPred item.name rid) = [] := by
      rw [List.filter_eq_nil_iff]
      intro cv hcv hpred
      simp only [cvPred, Bool.and_eq_true, beq_iff_eq] at hpred
      have : (existingImages crm0 rid).contains item.name = true :=
        (contains_existingImages crm0 rid item.name).mpr
          ⟨any_rid_of_findRec crm0 rid r hr0, cv, hcv, hpred.1, hpred.2⟩
      rw [hmemf] at this
      exact absurd this (by simp)
    have hfresh : (freshCv acc.crm drive item.fid item.name rid).pathOnClient = item.name ∧
        (freshCv acc.crm drive item.fid item.name rid).firstPublishLocationId = rid :=
      ⟨rfl, rfl⟩
    refine ⟨⟨by rw [hcrm2]; exact hrecs,
      ⟨extras ++ [freshCv acc.crm drive item.fid item.name rid], ?_, ?_⟩, ?_⟩, ?_⟩
    · rw [hcrm2]
      show acc.crm.cvs ++ _ = _
      rw [hcvs, List.append_assoc]
    · intro cv2 h2
      rcases List.mem_append.mp h2 with hold | hnew2
      · exact List.mem_append_left _ (hlocs cv2 hold)
      · rw [List.mem_singleton] at hnew2
        subst hnew2
        exact List.mem_append_right _ (List.mem_singleton.mpr rfl)
    · intro m hm2
      rw [hupd3] at hm2
      rcases List.mem_append.mp hm2 with hold | hnew2
      · obtain ⟨rid2, hrid2, hd⟩ := hupd m hold
        exact ⟨rid2, List.mem_append_left _ hrid2, hd⟩
      · rw [List.mem_singleton] at hnew2
        subst hnew2
        exact ⟨rid, List.mem_append_right _ (List.mem_singleton.mpr rfl),
          dictGet_mkMutation_id rid pf _ hpf⟩
    · refine ⟨freshCv acc.crm drive item.fid item.name rid, [], ?_, Or.inr
        ⟨new_image_tag dom item.name ("CV" ++ toString acc.crm.nextCv)
          ("DOC" ++ toString acc.crm.nextCv), ?_, ?_⟩⟩
      · rw [hcrm2]
        show (acc.crm.cvs ++ _).filter _ = _
        rw [hcvs, List.append_assoc, List.filter_append, hq0, List.nil_append,
          List.filter_append, hexfil, List.nil_append]
        have : cvPred item.name rid (freshCv acc.crm drive item.fid item.name rid) = true := by
          simp [cvPred, freshCv]
        rw [List.filter_cons, if_pos this]
        rfl
      · rw [hupd3, mutsFor_append, hmuts0, mutsFor_mkMutation rid pf _ hpf]
        simp
      · exact (normalizeHtml_cross dom item.name _ _).symm

theorem processOne_frames (obj pf dom : String) (drive : String → List Nat)
    (idMap : String → Option (String × String)) (idx : String → List String)
    (crm0 : Crm) (acc : Acc) (item : DriveFile) (name rid : String)
    (hpf : pf ≠ "Id")
    (hdiff : ∀ mid rid2 rname2, migrationIdOf obj item.name = some mid →
      idMap mid = some (rid2, rname2) → rid2 ≠ rid)
    (hpost : PostFile pf dom crm0 name rid acc) :
    PostFile pf dom crm0 name rid (processOne obj pf dom drive idMap idx acc item) := by
  obtain ⟨cv, rest, hflt, hdisj⟩ := hpost
  cases hm : migrationIdOf obj item.name with
  | none =>
    rw [processOne_eval_invalid obj pf dom drive idMap idx acc item hm]
    exact ⟨cv, rest, hflt, hdisj⟩
  | some mid =>
    cases hi : idMap mid with
    | none =>
      rw [processOne_eval_notfound obj pf dom drive idMap idx acc item mid hm hi]
      exact ⟨cv, rest, hflt, hdisj⟩
    | some p =>
      obtain ⟨rid2, rname2⟩ := p
      have hne : rid2 ≠ rid := hdiff mid rid2 rname2 hm hi
      obtain ⟨hcrm, hupds, _⟩ := processOne_eval_resolved obj pf dom drive idMap idx acc
        item mid rid2 rname2 hm hi
      obtain ⟨_, exs, hexcvs, hexprops⟩ :=
        process_image_effects acc.crm drive obj item.fid item.name rid2 pf dom idx
      have hfl2 : (processOne obj pf dom drive idMap idx acc item).crm.cvs.filter
          (cvPred name rid) = cv :: rest := by
        rw [hcrm, hexcvs, List.filter_append, hflt]
        have hnil : exs.filter (cvPred name rid) = [] := by
          rw [List.filter_eq_nil_iff]
          intro cv2 h2 hp
          simp only [cvPred, Bool.and_eq_true, beq_iff_eq] at hp
          exact hne ((hexprops cv2 h2).2.symm ▸ hp.2)
        rw [hnil, List.append_nil]
      have hmuts2 : mutsFor rid (processOne obj pf dom drive idMap idx acc item).updates =
          mutsFor rid acc.updates := by
        rw [hupds, mutsFor_append]
        rcases process_image_mutation_shape acc.crm drive obj item.fid item.name rid2
          pf dom idx with hn | ⟨t, cv2, hsome, _, _, _, _⟩
        · rw [hn]
          simp [mutsFor]
        · rw [hsome]
          simp only [Option.toList_some]
          rw [mutsFor_mkMutation_ne rid rid2 pf t hpf hne, List.append_nil]
      refine ⟨cv, rest, hfl2, ?_⟩
      rcases hdisj with ⟨h1, h2⟩ | ⟨t, h1, h2⟩
      · exact Or.inl ⟨by rw [hmuts2]; exact h1, h2⟩
      · exact Or.inr ⟨t, by rw [hmuts2]; exact h1, h2⟩

theorem ridsOf_cons_unres (obj : String) (idMap : String → Option (String × String))
    (it : DriveFile) (rest : List DriveFile)
    (h : (migrationIdOf obj it.name).bind idMap = none) :
    ridsOf obj idMap (it :: rest) = ridsOf obj idMap rest := by
  unfold ridsOf
  rw [List.filterMap_cons]
  simp [h]

theorem ridsOf_cons_res (obj : String) (idMap : String → Option (String × String))
    (it : DriveFile) (rest : List DriveFile) (rid rname : String)
    (h : (migrationIdOf obj it.name).bind idMap = some (rid, rname)) :
    ridsOf obj idMap (it :: rest) = rid :: ridsOf obj idMap rest := by
  unfold ridsOf
  rw [List.filterMap_cons]
  simp [h]

theorem run1_fold (obj pf dom : String) (drive : String → List Nat) (crm0 : Crm)
    (hpf : pf ≠ "Id") :
    ∀ (todo : List DriveFile) (doneRids : List String) (acc : Acc),
      StateInv crm0 doneRids acc →
      (∀ r ∈ ridsOf obj (buildIdMap crm0) todo, r ∉ doneRids) →
      (ridsOf obj (buildIdMap crm0) todo).Nodup →
      StateInv crm0 (doneRids ++ ridsOf obj (buildIdMap crm0) todo)
        (todo.foldl (processOne obj pf dom drive (buildIdMap crm0)
          (existingImages crm0)) acc) ∧
      (∀ name rid, rid ∉ ridsOf obj (buildIdMap crm0) todo →
        PostFile pf dom crm0 name rid acc →
        PostFile pf dom crm0 name rid
          (todo.foldl (processOne obj pf dom drive (buildIdMap crm0)
            (existingImages crm0)) acc)) ∧
      (∀ it ∈ todo, ∀ mid rid rname, migrationIdOf obj it.name = some mid →
        buildIdMap crm0 mid = some (rid, rname) →
        PostFile pf dom crm0 it.name rid
          (todo.foldl (processOne obj pf dom drive (buildIdMap crm0)
            (existingImages crm0)) acc))
  | [], doneRids, acc, hInv, _, _ => by
    refine ⟨by simpa [ridsOf] using hInv, ?_, ?_⟩
    · intro name rid _ hp
      exact hp
    · intro it hit
      simp at hit
  | it :: rest, doneRids, acc, hInv, hdisj, hnodup => by
    cases hm : migrationIdOf obj it.name with
    | none =>
      have hbind : (migrationIdOf obj it.name).bind (buildIdMap crm0) = none := by
        rw [hm]; rfl
      have hr := ridsOf_cons_unres obj (buildIdMap crm0) it rest hbind
      rw [hr] at hdisj hnodup ⊢
      rw [List.foldl_cons]
      have hInv1 : StateInv crm0 doneRids
          (processOne obj pf dom drive (buildIdMap crm0) (existingImages crm0) acc it) := by
        rw [processOne_eval_invalid obj pf dom drive (buildIdMap crm0)
          (existingImages crm0) acc it hm]
        exact hInv
      have IH := run1_fold obj pf dom drive crm0 hpf rest doneRids
        (processOne obj pf dom drive (buildIdMap crm0) (existingImages crm0) acc it)
        hInv1 hdisj hnodup
      refine ⟨IH.1, ?_, ?_⟩
      · intro name rid hnr hp
        refine IH.2.1 name rid hnr ?_
        rw [processOne_eval_invalid obj pf dom drive (buildIdMap crm0)
          (existingImages crm0) acc it hm]
        exact hp
      · intro it2 hit2 mid rid rname hm2 hi2
        rcases List.mem_cons.mp hit2 with rfl | h2
        · rw [hm] at hm2
          exact absurd hm2 (by simp)
        · exact IH.2.2 it2 h2 mid rid rname hm2 hi2
    | some mid =>
      cases hi : buildIdMap crm0 mid with
      | none =>
        have hbind : (migrationIdOf obj it.name).bind (buildIdMap crm0) = none := by
          rw [hm]; exact hi
        have hr := ridsOf_cons_unres obj (buildIdMap crm0) it rest hbind
        rw [hr] at hdisj hnodup ⊢
        rw [List.foldl_cons]
        have hInv1 : StateInv crm0 doneRids
            (processOne obj pf dom drive (buildIdMap crm0) (existingImages crm0) acc it) := by
          rw [processOne_eval_notfound obj pf dom drive (buildIdMap crm0)
            (existingImages crm0) acc it mid hm hi]
          exact hInv
        have IH := run1_fold obj pf dom drive crm0 hpf rest doneRids
          (processOne obj pf dom drive (buildIdMap crm0) (existingImages crm0) acc it)
          hInv1 hdisj hnodup
        refine ⟨IH.1, ?_, ?_⟩
        · intro name rid hnr hp
          refine IH.2.1 name rid hnr ?_
          rw [processOne_eval_notfound obj pf dom drive (buildIdMap crm0)
            (existingImages crm0) acc it mid hm hi]
          exact hp
        · intro it2 hit2 mid2 rid rname hm2 hi2
          rcases List.mem_cons.mp hit2 with rfl | h2
          · rw [hm] at hm2
            injection hm2 with hmid
            subst hmid
            rw [hi] at hi2
            exact absurd hi2 (by simp)
          · exact IH.2.2 it2 h2 mid2 rid rname hm2 hi2
      | some p =>
        obtain ⟨rid, rname⟩ := p
        have hbind : (migrationIdOf obj it.name).bind (buildIdMap crm0) =
            some (rid, rname) := by
          rw [hm]; exact hi
        have hr := ridsOf_cons_res obj (buildIdMap crm0) it rest rid rname hbind
        rw [hr] at hdisj hnodup ⊢
        rw [List.foldl_cons]
        have hnewrid : rid ∉ doneRids := hdisj rid (List.mem_cons_self _ _)
        obtain ⟨hInv1, hpost1⟩ := processOne_establishes obj pf dom drive crm0 doneRids
          acc it mid rid rname hpf hm hi hnewrid hInv
        have hnotin : rid ∉ ridsOf obj (buildIdMap crm0) rest :=
          (List.nodup_cons.mp hnodup).1
        have hnodup2 : (ridsOf obj (buildIdMap crm0) rest).Nodup :=
          (List.nodup_cons.mp hnodup).2
        have hdisj2 : ∀ r ∈ ridsOf obj (buildIdMap crm0) rest, r ∉ doneRids ++ [rid] := by
          intro r hr2 hmem
          rcases List.mem_append.mp hmem with hin | hin
          · exact hdisj r (List.mem_cons_of_mem _ hr2) hin
          · rw [List.mem_singleton] at hin
            subst hin
            exact hnotin hr2
        have IH := run1_fold obj pf dom drive crm0 hpf rest (doneRids ++ [rid])
          (processOne obj pf dom drive (buildIdMap crm0) (existingImages crm0) acc it)
          hInv1 hdisj2 hnodup2
        refine ⟨?_, ?_, ?_⟩
        · rw [List.append_cons]
          exact IH.1
        · intro name rid2 hnr hp
          have hne : rid ≠ rid2 := fun he => hnr (he ▸ List.mem_cons_self _ _)
          have hp1 : PostFile pf dom crm0 name rid2
              (processOne obj pf dom drive (buildIdMap crm0) (existingImages crm0)
                acc it) := by
            refine processOne_frames obj pf dom drive (buildIdMap crm0)
              (existingImages crm0) crm0 acc it name rid2 hpf ?_ hp
            intro mid2 rid3 rname3 hm2 hi2
            rw [hm] at hm2
            injection hm2 with hmid
            subst hmid
            rw [hi] at hi2
            injection hi2 with hp2
            have hrr : rid = rid3 := (Prod.mk.injEq _ _ _ _ ▸ hp2).1
            rw [← hrr]
            exact hne
          exact IH.2.1 name rid2 (fun hin => hnr (List.mem_cons_of_mem _ hin)) hp1
        · intro it2 hit2 mid2 rid2 rname2 hm2 hi2
          rcases List.mem_cons.mp hit2 with rfl | h2
          · rw [hm] at hm2
            injection hm2 with hmid
            subst hmid
            rw [hi] at hi2
            injection hi2 with hp2
            obtain ⟨hrid2, _⟩ := Prod.mk.injEq _ _ _ _ ▸ hp2
            rw [← hrid2]
            exact IH.2.1 it2.name rid hnotin hpost1
          · exact IH.2.2 it2 h2 mid2 rid2 rname2 hm2 hi2

/-- What makes a file a guaranteed `Skipped` on a later run: the record
exists, the attachment index lists the file, and the stored field value
normalizes to the canonical tag of the targeted query's first row. -/
def Stable (dom : String) (crm : Crm) (name rid : String) : Prop :=
  ∃ r, findRec crm.recs rid = some r ∧
    (existingImages crm rid).contains name = true ∧
    ∃ cv rest, crm.cvs.filter (cvPred name rid) = cv :: rest ∧
      normalizeHtml (r.photo.getD "") =
        normalizeHtml (existing_image_tag dom name cv.cvId cv.docId)

theorem contains_of_filter_head (crm : Crm) (name rid : String) (r : SfRec)
    (cv : ContentVersion) (rest : List ContentVersion)
    (hfind : findRec crm.recs rid = some r)
    (hflt : crm.cvs.filter (cvPred name rid) = cv :: rest) :
    (existingImages crm rid).contains name = true := by
  have hcv : cv ∈ crm.cvs ∧ cvPred name rid cv = true := by
    have : cv ∈ crm.cvs.filter (cvPred name rid) := by
      rw [hflt]
      exact List.mem_cons_self _ _
    exact List.mem_filter.mp this
  have hpred := hcv.2
  simp only [cvPred, Bool.and_eq_true, beq_iff_eq] at hpred
  exact (contains_existingImages crm rid name).mpr
    ⟨any_rid_of_findRec crm rid r hfind, cv, hcv.1, hpred.1, hpred.2⟩

theorem postfile_to_stable (pf dom : String) (crm0 : Crm) (accF : Acc)
    (name rid : String) (r : SfRec) (hpf : pf ≠ "Id")
    (hrecsF : accF.crm.recs = crm0.recs)
    (hr0 : findRec crm0.recs rid = some r)
    (hpost : PostFile pf dom crm0 name rid accF) :
    Stable dom { accF.crm with recs := applyUpdates pf accF.crm.recs accF.updates }
      name rid := by
  obtain ⟨cv, rest, hflt, hdisj⟩ := hpost
  rcases hdisj with ⟨h1, h2⟩ | ⟨t, h1, h2⟩
  · have hfind : findRec (applyUpdates pf accF.crm.recs accF.updates) rid = some r := by
      rw [findRec_applyUpdates_none pf rid accF.updates accF.crm.recs h1, hrecsF]
      exact hr0
    refine ⟨r, hfind, ?_, cv, rest, hflt, ?_⟩
    · exact contains_of_filter_head _ name rid r cv rest hfind hflt
    · rw [← fieldOf_eq crm0 rid r hr0]
      exact h2
  · have hfind : findRec (applyUpdates pf accF.crm.recs accF.updates) rid =
        some { r with photo := dictGet (mkMutation rid pf t) pf } := by
      refine findRec_applyUpdates_one pf rid _ accF.updates accF.crm.recs r h1 ?_
      rw [hrecsF]
      exact hr0
    refine ⟨_, hfind, ?_, cv, rest, hflt, ?_⟩
    · exact contains_of_filter_head _ name rid _ cv rest hfind hflt
    · rw [dictGet_mkMutation_pf rid pf t hpf]
      exact h2

theorem buildIdMap_fullRun (pf : String) (accF : Acc) (crm0 : Crm)
    (hrecsF : accF.crm.recs = crm0.recs) (mid : String) :
    buildIdMap { accF.crm with recs := applyUpdates pf accF.crm.recs accF.updates } mid =
      buildIdMap crm0 mid := by
  unfold buildIdMap
  have hshape : (applyUpdates pf accF.crm.recs accF.updates).map
      (fun r => (r.rid, r.name, r.migId)) =
      crm0.recs.map (fun r => (r.rid, r.name, r.migId)) :=
    (applyUpdates_shape pf accF.updates accF.crm.recs).trans (by rw [hrecsF])
  have hshape2 : (applyUpdates pf accF.crm.recs accF.updates).reverse.map
      (fun r => (r.rid, r.name, r.migId)) =
      crm0.recs.reverse.map (fun r => (r.rid, r.name, r.migId)) := by
    rw [List.map_reverse, List.map_reverse, hshape]
  exact find?_mig_of_shape _ _ mid hshape2

theorem run2_fold (obj pf dom : String) (drive : String → List Nat) (crm1 : Crm) :
    ∀ (todo : List DriveFile) (acc : Acc), acc.crm = crm1 →
      (∀ it ∈ todo, ∀ mid rid rname, migrationIdOf obj it.name = some mid →
        buildIdMap crm1 mid = some (rid, rname) → Stable dom crm1 it.name rid) →
      (todo.foldl (processOne obj pf dom drive (buildIdMap crm1)
        (existingImages crm1)) acc).crm = crm1 ∧
      (todo.foldl (processOne obj pf dom drive (buildIdMap crm1)
        (existingImages crm1)) acc).updates = acc.updates ∧
      ∃ newRows,
        (todo.foldl (processOne obj pf dom drive (buildIdMap crm1)
          (existingImages crm1)) acc).rows = acc.rows ++ newRows ∧
        newRows.length = todo.length ∧
        ∀ row ∈ newRows, row.processingResult = "Skipped" ∨
          row.processingResult = "Invalid file name format" ∨
          row.processingResult = "SF Record Not Found"
  | [], acc, hacc, _ => by
    refine ⟨hacc, rfl, [], by simp, rfl, ?_⟩
    intro row hrow
    simp at hrow
  | it :: rest, acc, hacc, hstable => by
    rw [List.foldl_cons]
    cases hm : migrationIdOf obj it.name with
    | none =>
      have hstep := processOne_eval_invalid obj pf dom drive (buildIdMap crm1)
        (existingImages crm1) acc it hm
      have IH := run2_fold obj pf dom drive crm1 rest
        (processOne obj pf dom drive (buildIdMap crm1) (existingImages crm1) acc it)
        (by rw [hstep]; exact hacc)
        (fun it2 h2 => hstable it2 (List.mem_cons_of_mem _ h2))
      obtain ⟨hc, hu, newRows, hrows, hlen, hall⟩ := IH
      refine ⟨hc, by rw [hu, hstep], ?_⟩
      refine ⟨⟨none, "N/A", "N/A", it.name, "Invalid file name format"⟩ :: newRows, ?_, ?_, ?_⟩
      · rw [hrows, hstep]
        simp
      · simp [hlen]
      · intro row hrow
        rcases List.mem_cons.mp hrow with rfl | h2
        · exact Or.inr (Or.inl rfl)
        · exact hall row h2
    | some mid =>
      cases hi : buildIdMap crm1 mid with
      | none =>
        have hstep := processOne_eval_notfound obj pf dom drive (buildIdMap crm1)
          (existingImages crm1) acc it mid hm hi
        have IH := run2_fold obj pf dom drive crm1 rest
          (processOne obj pf dom drive (buildIdMap crm1) (existingImages crm1) acc it)
          (by rw [hstep]; exact hacc)
          (fun it2 h2 => hstable it2 (List.mem_cons_of_mem _ h2))
        obtain ⟨hc, hu, newRows, hrows, hlen, hall⟩ := IH
        refine ⟨hc, by rw [hu, hstep], ?_⟩
        refine ⟨⟨none, "N/A", mid, it.name, "SF Record Not Found"⟩ :: newRows, ?_, ?_, ?_⟩
        · rw [hrows, hstep]
          simp
        · simp [hlen]
        · intro row hrow
          rcases List.mem_cons.mp hrow with rfl | h2
          · exact Or.inr (Or.inr rfl)
          · exact hall row h2
      | some p =>
        obtain ⟨rid, rname⟩ := p
        obtain ⟨r, hfind, hmem, cv, rest2, hflt, hnorm⟩ :=
          hstable it (List.mem_cons_self _ _) mid rid rname hm hi
        have hr : findRec acc.crm.recs rid = some r := by rw [hacc]; exact hfind
        have hq : acc.crm.cvs.filter (cvPred it.name rid) = cv :: rest2 := by
          rw [hacc]; exact hflt
        have heval := process_image_eval_existing acc.crm drive obj it.fid it.name rid
          pf dom (existingImages crm1) r cv rest2 hr hmem hq
        obtain ⟨hcrm, hupd2, hrows2⟩ := processOne_eval_resolved obj pf dom drive
          (buildIdMap crm1) (existingImages crm1) acc it mid rid rname hm hi
        have hcrm2 : (processOne obj pf dom drive (buildIdMap crm1) (existingImages crm1)
            acc it).crm = acc.crm := by
          rw [hcrm, heval, if_pos hnorm]
        have hupd3 : (processOne obj pf dom drive (buildIdMap crm1) (existingImages crm1)
            acc it).updates = acc.updates := by
          rw [hupd2, heval, if_pos hnorm]
          simp
        have hrows3 : (processOne obj pf dom drive (buildIdMap crm1) (existingImages crm1)
            acc it).rows = acc.rows ++ [⟨some rid, rname, mid, it.name, "Skipped"⟩] := by
          rw [hrows2, heval, if_pos hnorm]
        have IH := run2_fold obj pf dom drive crm1 rest
          (processOne obj pf dom drive (buildIdMap crm1) (existingImages crm1) acc it)
          (by rw [hcrm2]; exact hacc)
          (fun it2 h2 => hstable it2 (List.mem_cons_of_mem _ h2))
        obtain ⟨hc, hu, newRows, hrows, hlen, hall⟩ := IH
        refine ⟨hc, by rw [hu, hupd3], ?_⟩
        refine ⟨⟨some rid, rname, mid, it.name, "Skipped"⟩ :: newRows, ?_, ?_, ?_⟩
        · rw [hrows, hrows3]
          simp
        · simp [hlen]
        · intro row hrow
          rcases List.mem_cons.mp hrow with rfl | h2
          · exact Or.inl rfl
          · exact hall row h2

theorem fullRun_fst (obj pf dom : String) (drive : String → List Nat) (crm : Crm)
    (items : List DriveFile) :
    (fullRun obj pf dom drive crm items).1 =
      { (process_drive_files obj pf dom drive crm items).crm with
        recs := applyUpdates pf (process_drive_files obj pf dom drive crm items).crm.recs
          (process_drive_files obj pf dom drive crm items).updates } := rfl

/-- Initial CRM state for the idempotence counterexample: one record with
migration id `5` and no attachments. -/
def c3crm : Crm := ⟨[⟨"R1", "Name1", some "5", none⟩], [], 0⟩

/-- Listing for the counterexample: `photo5.jpg` and `photo05.jpg` both
resolve (after zero-stripping) to migration id `5`, hence to the same
record; `bad` has an invalid name. -/
def c3items : List DriveFile :=
  [⟨"f1", "photo5.jpg"⟩, ⟨"f2", "photo05.jpg"⟩, ⟨"f3", "bad"⟩]

set_option maxRecDepth 200000 in
/-- C3 counterexample: after a completed first run (both resolving files are
uploaded, the later mutation wins the bulk update), the second run over the
same listing is not all-`Skipped`: the first file compares against its own
attachment's tag while the field holds the other file's tag, so the second
run emits one mutation and an `Updated` row — and the invalid-format file
repeats `Invalid file name format`, never `Skipped`. -/
theorem c3_counterexample_rerun_mutates :
    (process_drive_files "Contact" "Photo__c" "D" (fun _ => [])
      (fullRun "Contact" "Photo__c" "D" (fun _ => []) c3crm c3items).1
      c3items).updates.length = 1 ∧
    (process_drive_files "Contact" "Photo__c" "D" (fun _ => [])
      (fullRun "Contact" "Photo__c" "D" (fun _ => []) c3crm c3items).1
      c3items).rows.map (fun row => row.processingResult) =
      [foreGreen ++ "Updated" ++ styleReset, "Skipped", "Invalid file name format"] ∧
    (1 : Nat) ≠ 0 := by
  exact ⟨rfl, rfl, by decide⟩

/-- C3 (amended): when no two listed files resolve to the same CRM record
(and the photo field is not named `Id`), a completed first run is
stabilizing: a second run over the same listing leaves the CRM state
untouched, emits zero mutation records, produces one row per file, and every
row is `Skipped` except that invalid-format and record-not-found files repeat
their first-run outcomes. -/
theorem c3_second_run_all_skipped (obj pf dom : String)
    (drive drive2 : String → List Nat) (crm0 : Crm) (items : List DriveFile)
    (hpf : pf ≠ "Id")
    (huniq : (ridsOf obj (buildIdMap crm0) items).Nodup) :
    (process_drive_files obj pf dom drive2
      (fullRun obj pf dom drive crm0 items).1 items).crm =
      (fullRun obj pf dom drive crm0 items).1 ∧
    (process_drive_files obj pf dom drive2
      (fullRun obj pf dom drive crm0 items).1 items).updates = [] ∧
    (process_drive_files obj pf dom drive2
      (fullRun obj pf dom drive crm0 items).1 items).rows.length = items.length ∧
    ∀ row ∈ (process_drive_files obj pf dom drive2
      (fullRun obj pf dom drive crm0 items).1 items).rows,
      row.processingResult = "Skipped" ∨
      row.processingResult = "Invalid file name format" ∨
      row.processingResult = "SF Record Not Found" := by
  have hInv0 : StateInv crm0 [] ⟨crm0, [], [], 0, 0, 0, 0⟩ :=
    ⟨rfl, ⟨[], by simp, by simp⟩, by simp⟩
  obtain ⟨hInvF, _, hposts⟩ := run1_fold obj pf dom drive crm0 hpf items []
    ⟨crm0, [], [], 0, 0, 0, 0⟩ hInv0
    (fun r _ h => absurd h (List.not_mem_nil r)) huniq
  have hrecsF : (process_drive_files obj pf dom drive crm0 items).crm.recs =
      crm0.recs := hInvF.1
  have hidmap : buildIdMap (fullRun obj pf dom drive crm0 items).1 =
      buildIdMap crm0 := by
    funext mid
    rw [fullRun_fst obj pf dom drive crm0 items]
    exact buildIdMap_fullRun pf (process_drive_files obj pf dom drive crm0 items)
      crm0 hrecsF mid
  have hstab : ∀ it ∈ items, ∀ mid rid rname, migrationIdOf obj it.name = some mid →
      buildIdMap (fullRun obj pf dom drive crm0 items).1 mid = some (rid, rname) →
      Stable dom (fullRun obj pf dom drive crm0 items).1 it.name rid := by
    intro it hit mid rid rname hm hi
    rw [hidmap] at hi
    obtain ⟨r, hr0⟩ := buildIdMap_some crm0 mid rid rname hi
    have hpost := hposts it hit mid rid rname hm hi
    rw [fullRun_fst obj pf dom drive crm0 items]
    exact postfile_to_stable pf dom crm0 (process_drive_files obj pf dom drive crm0 items)
      it.name rid r hpf hrecsF hr0 hpost
  obtain ⟨hc, hu, newRows, hrows, hlen, hall⟩ :=
    run2_fold obj pf dom drive2 (fullRun obj pf dom drive crm0 items).1 items
      ⟨(fullRun obj pf dom drive crm0 items).1, [], [], 0, 0, 0, 0⟩ rfl hstab
  have hrows2 : (process_drive_files obj pf dom drive2
      (fullRun obj pf dom drive crm0 items).1 items).rows = newRows := by
    have hx := hrows
    simp only [List.nil_append] at hx
    exact hx
  refine ⟨hc, hu, ?_, ?_⟩
  · rw [hrows2]
    exact hlen
  · intro row hrow
    rw [hrows2] at hrow
    exact hall row hrow

/-- C3 witness: the amended statement at a concrete one-file listing: the
second run emits no mutations and its single row is `Skipped`. -/
theorem c3_second_run_all_skipped_witness :
    (process_drive_files "Contact" "Photo__c" "D" (fun _ => [])
      (fullRun "Contact" "Photo__c" "D" (fun _ => []) wCrm [⟨"f1", "photo5.jpg"⟩]).1
      [⟨"f1", "photo5.jpg"⟩]).updates = [] ∧
    ∀ row ∈ (process_drive_files "Contact" "Photo__c" "D" (fun _ => [])
      (fullRun "Contact" "Photo__c" "D" (fun _ => []) wCrm [⟨"f1", "photo5.jpg"⟩]).1
      [⟨"f1", "photo5.jpg"⟩]).rows,
      row.processingResult = "Skipped" ∨
      row.processingResult = "Invalid file name format" ∨
      row.processingResult = "SF Record Not Found" :=
  ⟨(c3_second_run_all_skipped "Contact" "Photo__c" "D" (fun _ => []) (fun _ => [])
      wCrm [⟨"f1", "photo5.jpg"⟩] (by decide) (by decide)).2.1,
    (c3_second_run_all_skipped "Contact" "Photo__c" "D" (fun _ => []) (fun _ => [])
      wCrm [⟨"f1", "photo5.jpg"⟩] (by decide) (by decide)).2.2.2⟩

end Adpdx
